import Mathlib

/-!
Verification of the credential-registry core of the mosip-offline-verifier
backend (src/server/main.py). The Python handlers are shallowly embedded as
pure Lean functions over an explicit database state; SQLAlchemy sessions
become explicit state passing, HTTP exceptions become an error sum type,
uuid4 and clock calls become explicit supplies passed as arguments, and the
process-wide Fernet blob store is passed as an explicit function argument
(the spec's design note asks for exactly this explicit-injection modelling).
-/

namespace VC

/-- Bytes of a Python `bytes` object, each entry a value below 256. -/
abbrev Bytes := List Nat

/-- Mutate the first element of a list satisfying `p` with `f`, leaving the
rest unchanged: the model of the `query(...).first()` row mutation pattern
used by the Python handlers. -/
def updateFirst (p : α → Bool) (f : α → α) : List α → List α
  | [] => []
  | x :: xs => if p x then f x :: xs else x :: updateFirst p f xs

/-- Model of a Python `datetime.datetime` value: calendar fields plus an
optional fixed utc-offset in minutes (`none` models a naive datetime). -/
structure PyDateTime where
  year : Nat
  month : Nat
  day : Nat
  hour : Nat
  minute : Nat
  second : Nat
  microsecond : Nat
  tzoffsetMinutes : Option Int
deriving DecidableEq, Repr

/-- Gregorian leap-year test, as implemented by Python `calendar.isleap`. -/
def isLeapYear (y : Nat) : Bool :=
  y % 4 = 0 && (y % 100 ≠ 0 || y % 400 = 0)

/-- Days in a month, matching the validation Python `datetime` applies to
the day field. -/
def daysInMonth (y m : Nat) : Nat :=
  if m = 2 then (if isLeapYear y then 29 else 28)
  else if m = 4 || m = 6 || m = 9 || m = 11 then 30
  else 31

/-- Decimal digit value of a character, if it is a digit. -/
def digitVal (c : Char) : Option Nat :=
  if c.toNat < 48 ∨ 57 < c.toNat then none else some (c.toNat - 48)

/-- Read exactly `n` leading decimal digits, returning their value and the
remaining characters. -/
def readDigits : Nat → List Char → Option (Nat × List Char)
  | 0, cs => some (0, cs)
  | _ + 1, [] => none
  | n + 1, c :: cs =>
    match digitVal c with
    | none => none
    | some d =>
      match readDigits n cs with
      | none => none
      | some (v, rest) => some (d * 10 ^ n + v, rest)

/-- Read up to `n` leading decimal digits (greedy), returning the digit
characters consumed and the rest. -/
def readSomeDigits : Nat → List Char → List Char × List Char
  | 0, cs => ([], cs)
  | _ + 1, [] => ([], [])
  | n + 1, c :: cs =>
    match digitVal c with
    | none => ([], c :: cs)
    | some _ =>
      match readSomeDigits n cs with
      | (ds, rest) => (c :: ds, rest)

/-- Scale a second fraction of `k` digits to a microsecond count. -/
def fracToMicros (ds : List Char) : Nat :=
  (ds.foldl (fun acc c => 10 * acc + (digitVal c).getD 0) 0) * 10 ^ (6 - ds.length)

/-- Parse the optional utc-offset suffix `±HH:MM` of an ISO timestamp;
requires the whole remaining input to be consumed. Mirrors the offset
validation of Python `datetime.fromisoformat` (minutes below 60, hours
below 24). -/
def parseTzSuffix (cs : List Char) : Option (Option Int) :=
  match cs with
  | [] => some none
  | sgn :: rest =>
    if sgn = '+' || sgn = '-' then
      match readDigits 2 rest with
      | none => none
      | some (oh, rest1) =>
        match rest1 with
        | ':' :: rest2 =>
          match readDigits 2 rest2 with
          | none => none
          | some (om, rest3) =>
            if rest3 = [] && om < 60 && oh < 24 then
              some (some (if sgn = '-' then -((oh : Int) * 60 + om) else (oh : Int) * 60 + om))
            else none
        | _ => none
    else none

/-- Parse the optional second and fraction fields `[:SS[.ffffff]]` plus the
utc-offset suffix, given the already-parsed date and hour/minute fields. -/
def parseSecondPart (y mo d hh mi : Nat) (cs : List Char) : Option PyDateTime :=
  match cs with
  | ':' :: r4 =>
    match readDigits 2 r4 with
    | none => none
    | some (ss, r5) =>
      if ss < 60 then
        match r5 with
        | '.' :: r6 =>
          match readSomeDigits 6 r6 with
          | (ds, r7) =>
            if ds = [] then none
            else
              match parseTzSuffix r7 with
              | none => none
              | some tz => some ⟨y, mo, d, hh, mi, ss, fracToMicros ds, tz⟩
        | _ =>
          match parseTzSuffix r5 with
          | none => none
          | some tz => some ⟨y, mo, d, hh, mi, ss, 0, tz⟩
      else none
  | _ =>
    match parseTzSuffix cs with
    | none => none
    | some tz => some ⟨y, mo, d, hh, mi, 0, 0, tz⟩

/-- Parse the time part `HH:MM[:SS[.ffffff]][±HH:MM]` following the date
and separator of an ISO timestamp. -/
def parseTimePart (y mo d : Nat) (cs : List Char) : Option PyDateTime :=
  match readDigits 2 cs with
  | none => none
  | some (hh, r1) =>
    match r1 with
    | ':' :: r2 =>
      match readDigits 2 r2 with
      | none => none
      | some (mi, r3) =>
        if hh < 24 && mi < 60 then parseSecondPart y mo d hh mi r3
        else none
    | _ => none

/-- Modelled from Python `datetime.datetime.fromisoformat`: accepts
`YYYY-MM-DD`, optionally followed by a single separator character and
`HH:MM[:SS[.f]]` with a one-to-six digit fraction, optionally followed by a
`±HH:MM` utc offset; all fields are range-checked (calendar-valid day,
hour below 24, and so on). Exotic inputs CPython additionally accepts
(week dates, offsets with seconds) are outside the model; every input used
in this development is in the common subset. -/
def fromisoformat (cs : List Char) : Option PyDateTime :=
  match readDigits 4 cs with
  | none => none
  | some (y, r1) =>
    match r1 with
    | '-' :: r2 =>
      match readDigits 2 r2 with
      | none => none
      | some (mo, r3) =>
        match r3 with
        | '-' :: r4 =>
          match readDigits 2 r4 with
          | none => none
          | some (d, r5) =>
            if 1 ≤ mo && mo ≤ 12 && 1 ≤ d && d ≤ daysInMonth y mo then
              match r5 with
              | [] => some ⟨y, mo, d, 0, 0, 0, 0, none⟩
              | _ :: r6 => parseTimePart y mo d r6
            else none
        | _ => none
    | _ => none

/-- Model of the Python expression `s.replace(Z, +00:00)` applied by the
scan-batch handler before timestamp parsing: every occurrence of the
character `Z` is replaced by the five-character offset spelling. -/
def replaceZ : List Char → List Char
  | [] => []
  | c :: cs =>
    if c = 'Z' then '+' :: '0' :: '0' :: ':' :: '0' :: '0' :: replaceZ cs
    else c :: replaceZ cs

/-- Value of a base64url alphabet character (the token codec translates the
url-safe alphabet to the standard one before decoding; the two composed are
this table). -/
def b64Val (c : Char) : Option Nat :=
  if 65 ≤ c.toNat ∧ c.toNat ≤ 90 then some (c.toNat - 65)
  else if 97 ≤ c.toNat ∧ c.toNat ≤ 122 then some (c.toNat - 71)
  else if c.toNat < 48 ∨ 57 < c.toNat then
    (if c = '-' then some 62 else if c = '_' then some 63 else none)
  else some (c.toNat + 4)

/-- The padding-restoration step of `_parse_jws_unverified`: when the
segment length is not a multiple of four, append the missing `=` padding. -/
def addPadding (cs : List Char) : List Char :=
  if cs.length % 4 = 0 then cs else cs ++ List.replicate (4 - cs.length % 4) '='

/-- Base64 decoding of a padded segment, four characters to three bytes,
with `=` padding allowed only at the very end (one or two characters).
Modelled from the behaviour of `base64.urlsafe_b64decode` on its failing
and succeeding inputs; the CPython leniency of silently discarding
characters outside the alphabet is modelled as a decode failure instead,
which the development never exercises. -/
def b64decodeGroups : List Char → Option Bytes
  | [] => some []
  | a :: b :: c :: d :: rest =>
    match b64Val a, b64Val b with
    | some va, some vb =>
      if c = '=' then
        if d = '=' && rest = [] then some [va * 4 + vb / 16] else none
      else
        match b64Val c with
        | none => none
        | some vc =>
          if d = '=' then
            if rest = [] then some [va * 4 + vb / 16, (vb % 16) * 16 + vc / 4] else none
          else
            match b64Val d with
            | none => none
            | some vd =>
              match b64decodeGroups rest with
              | none => none
              | some bs =>
                some ((va * 4 + vb / 16) :: ((vb % 16) * 16 + vc / 4) :: ((vc % 4) * 64 + vd) :: bs)
    | _, _ => none
  | _ => none

/-- Decode one base64url segment of a token after restoring padding. -/
def decodeSegment (cs : List Char) : Option Bytes :=
  b64decodeGroups (addPadding cs)

/-- Fuel-driven strict utf-8 decoder, the model of Python
`bytes.decode(utf-8)`: continuation bytes are range-checked per leading
byte (rejecting overlong forms, surrogates and values beyond the unicode
range), and any violation fails the whole decode. -/
def utf8DecodeAux : Nat → Bytes → Option (List Char)
  | 0, _ => none
  | _ + 1, [] => some []
  | fuel + 1, b1 :: rest =>
    if b1 < 0x80 then (utf8DecodeAux fuel rest).map (fun cs => Char.ofNat b1 :: cs)
    else if 0xC2 ≤ b1 && b1 ≤ 0xDF then
      match rest with
      | b2 :: rest2 =>
        if 0x80 ≤ b2 && b2 ≤ 0xBF then
          (utf8DecodeAux fuel rest2).map
            (fun cs => Char.ofNat ((b1 - 0xC0) * 0x40 + (b2 - 0x80)) :: cs)
        else none
      | _ => none
    else if 0xE0 ≤ b1 && b1 ≤ 0xEF then
      match rest with
      | b2 :: b3 :: rest3 =>
        if (if b1 = 0xE0 then 0xA0 else 0x80) ≤ b2 && b2 ≤ (if b1 = 0xED then 0x9F else 0xBF)
            && 0x80 ≤ b3 && b3 ≤ 0xBF then
          (utf8DecodeAux fuel rest3).map
            (fun cs => Char.ofNat ((b1 - 0xE0) * 0x1000 + (b2 - 0x80) * 0x40 + (b3 - 0x80)) :: cs)
        else none
      | _ => none
    else if 0xF0 ≤ b1 && b1 ≤ 0xF4 then
      match rest with
      | b2 :: b3 :: b4 :: rest4 =>
        if (if b1 = 0xF0 then 0x90 else 0x80) ≤ b2 && b2 ≤ (if b1 = 0xF4 then 0x8F else 0xBF)
            && 0x80 ≤ b3 && b3 ≤ 0xBF && 0x80 ≤ b4 && b4 ≤ 0xBF then
          (utf8DecodeAux fuel rest4).map
            (fun cs =>
              Char.ofNat ((b1 - 0xF0) * 0x40000 + (b2 - 0x80) * 0x1000
                + (b3 - 0x80) * 0x40 + (b4 - 0x80)) :: cs)
        else none
      | _ => none
    else none

/-- Strict utf-8 decoding of a byte string to characters. -/
def utf8Decode (bs : Bytes) : Option (List Char) :=
  utf8DecodeAux (bs.length + 1) bs

/-- The JSON value model for decoded token segments. Numeric literals are
kept as their source text, which is all the registry ever does with them. -/
inductive Json where
  | null : Json
  | bool (b : Bool) : Json
  | num (lit : String) : Json
  | str (s : String) : Json
  | arr (items : List Json) : Json
  | obj (fields : List (String × Json)) : Json
deriving Repr

/-- JSON whitespace skipping (space, tab, newline, carriage return), as in
Python `json.loads`. -/
def skipWs : List Char → List Char
  | [] => []
  | c :: cs =>
    if c = ' ' || c = '\t' || c = '\n' || c = '\r' then skipWs cs
    else c :: cs

/-- Hexadecimal digit value of a character. -/
def hexVal (c : Char) : Option Nat :=
  match digitVal c with
  | some d => some d
  | none =>
    if 97 ≤ c.toNat ∧ c.toNat ≤ 102 then some (c.toNat - 87)
    else if 65 ≤ c.toNat ∧ c.toNat ≤ 70 then some (c.toNat - 55)
    else none

/-- Parse the body of a JSON string literal (after the opening quote) up to
its closing quote, handling the JSON escapes including surrogate-pair
`\uXXXX` forms; raw control characters are rejected as in strict-mode
Python `json.loads`. Lone surrogate escapes, which CPython maps to
surrogate code units that have no counterpart in Lean characters, are
rejected; no input of this development contains one. -/
def parseStrBody : Nat → List Char → Option (List Char × List Char)
  | 0, _ => none
  | _ + 1, [] => none
  | fuel + 1, c :: rest =>
    if c = '"' then some ([], rest)
    else if c = '\\' then
      match rest with
      | [] => none
      | e :: rest2 =>
        if e = '"' || e = '\\' || e = '/' then
          (parseStrBody fuel rest2).map (fun r => (e :: r.1, r.2))
        else if e = 'b' then
          (parseStrBody fuel rest2).map (fun r => (Char.ofNat 8 :: r.1, r.2))
        else if e = 'f' then
          (parseStrBody fuel rest2).map (fun r => (Char.ofNat 12 :: r.1, r.2))
        else if e = 'n' then
          (parseStrBody fuel rest2).map (fun r => ('\n' :: r.1, r.2))
        else if e = 'r' then
          (parseStrBody fuel rest2).map (fun r => (Char.ofNat 13 :: r.1, r.2))
        else if e = 't' then
          (parseStrBody fuel rest2).map (fun r => ('\t' :: r.1, r.2))
        else if e = 'u' then
          match rest2 with
          | h1 :: h2 :: h3 :: h4 :: rest3 =>
            match hexVal h1, hexVal h2, hexVal h3, hexVal h4 with
            | some v1, some v2, some v3, some v4 =>
              let cp := v1 * 0x1000 + v2 * 0x100 + v3 * 0x10 + v4
              if 0xD800 ≤ cp && cp ≤ 0xDBFF then
                match rest3 with
                | '\\' :: 'u' :: g1 :: g2 :: g3 :: g4 :: rest4 =>
                  match hexVal g1, hexVal g2, hexVal g3, hexVal g4 with
                  | some w1, some w2, some w3, some w4 =>
                    let lo := w1 * 0x1000 + w2 * 0x100 + w3 * 0x10 + w4
                    if 0xDC00 ≤ lo && lo ≤ 0xDFFF then
                      (parseStrBody fuel rest4).map
                        (fun r =>
                          (Char.ofNat (0x10000 + (cp - 0xD800) * 0x400 + (lo - 0xDC00)) :: r.1,
                            r.2))
                    else none
                  | _, _, _, _ => none
                | _ => none
              else if 0xDC00 ≤ cp && cp ≤ 0xDFFF then none
              else (parseStrBody fuel rest3).map (fun r => (Char.ofNat cp :: r.1, r.2))
            | _, _, _, _ => none
          | _ => none
        else none
    else if c.toNat < 0x20 then none
    else (parseStrBody fuel rest).map (fun r => (c :: r.1, r.2))

/-- Take the maximal run of leading decimal digits. -/
def takeDigitsAll : List Char → List Char × List Char
  | [] => ([], [])
  | c :: cs =>
    match digitVal c with
    | none => ([], c :: cs)
    | some _ =>
      match takeDigitsAll cs with
      | (ds, rest) => (c :: ds, rest)

/-- Parse a JSON numeric literal (`-? int frac? exp?` with no leading
zeros), returning its source text and the rest of the input. -/
def parseNumLit (cs : List Char) : Option (List Char × List Char) :=
  let signed := match cs with
    | '-' :: r => some (['-'], r)
    | _ => some (([] : List Char), cs)
  match signed with
  | none => none
  | some (sgn, cs1) =>
    let intPart : Option (List Char × List Char) := match cs1 with
      | '0' :: r => some (['0'], r)
      | c :: r =>
        match digitVal c with
        | some _ =>
          match takeDigitsAll r with
          | (ds, rest) => some (c :: ds, rest)
        | none => none
      | [] => none
    match intPart with
    | none => none
    | some (ip, cs2) =>
      let fracPart : Option (List Char × List Char) := match cs2 with
        | '.' :: r =>
          match takeDigitsAll r with
          | ([], _) => none
          | (ds, rest) => some ('.' :: ds, rest)
        | _ => some ([], cs2)
      match fracPart with
      | none => none
      | some (fp, cs3) =>
        let expPart : Option (List Char × List Char) := match cs3 with
          | e :: r =>
            if e = 'e' || e = 'E' then
              let (es, r1) := match r with
                | '+' :: r2 => (['+'], r2)
                | '-' :: r2 => (['-'], r2)
                | _ => (([] : List Char), r)
              match takeDigitsAll r1 with
              | ([], _) => none
              | (ds, rest) => some (e :: es ++ ds, rest)
            else some ([], cs3)
          | [] => some ([], cs3)
        match expPart with
        | none => none
        | some (ep, cs4) => some (sgn ++ ip ++ fp ++ ep, cs4)

/-- Parser mode: a whole value, the tail of an array after at least one
item is required, or the tail of an object after at least one field is
required. -/
inductive PMode where
  | val : PMode
  | arrTail (acc : List Json) : PMode
  | objTail (acc : List (String × Json)) : PMode

/-- Fuel-driven recursive-descent JSON parser, the model of Python
`json.loads` on the decoded token segments. -/
def jsonP : Nat → PMode → List Char → Option (Json × List Char)
  | 0, _, _ => none
  | fuel + 1, .val, cs =>
    match skipWs cs with
    | [] => none
    | 'n' :: 'u' :: 'l' :: 'l' :: rest => some (.null, rest)
    | 't' :: 'r' :: 'u' :: 'e' :: rest => some (.bool true, rest)
    | 'f' :: 'a' :: 'l' :: 's' :: 'e' :: rest => some (.bool false, rest)
    | '"' :: rest =>
      (parseStrBody (rest.length + 1) rest).map (fun r => (.str (String.mk r.1), r.2))
    | '[' :: rest =>
      (match skipWs rest with
        | ']' :: rest2 => some (.arr [], rest2)
        | _ => jsonP fuel (.arrTail []) rest)
    | '\x7b' :: rest =>
      (match skipWs rest with
        | '\x7d' :: rest2 => some (.obj [], rest2)
        | _ => jsonP fuel (.objTail []) rest)
    | c :: rest =>
      if c = '-' || (digitVal c).isSome then
        (parseNumLit (c :: rest)).map (fun r => (.num (String.mk r.1), r.2))
      else none
  | fuel + 1, .arrTail acc, cs =>
    match jsonP fuel .val cs with
    | none => none
    | some (v, cs1) =>
      match skipWs cs1 with
      | ',' :: cs2 => jsonP fuel (.arrTail (acc ++ [v])) cs2
      | ']' :: cs2 => some (.arr (acc ++ [v]), cs2)
      | _ => none
  | fuel + 1, .objTail acc, cs =>
    match skipWs cs with
    | '"' :: cs1 =>
      match parseStrBody (cs1.length + 1) cs1 with
      | none => none
      | some (key, cs2) =>
        match skipWs cs2 with
        | ':' :: cs3 =>
          match jsonP fuel .val cs3 with
          | none => none
          | some (v, cs4) =>
            match skipWs cs4 with
            | ',' :: cs5 => jsonP fuel (.objTail (acc ++ [(String.mk key, v)])) cs5
            | '\x7d' :: cs5 => some (.obj (acc ++ [(String.mk key, v)]), cs5)
            | _ => none
        | _ => none
    | _ => none

/-- Parse a complete JSON document: one value with only whitespace allowed
after it. -/
def jsonParse (cs : List Char) : Option Json :=
  match jsonP (2 * cs.length + 2) .val cs with
  | none => none
  | some (v, rest) => if skipWs rest = [] then some v else none

/-- Model of `json.loads(segment_bytes.decode(utf-8))` on a decoded token
segment: strict utf-8 decoding followed by JSON parsing. -/
def jsonLoads (bs : Bytes) : Option Json :=
  (utf8Decode bs).bind jsonParse

/-- Lookup of a key in a decoded JSON object, the model of Python
`payload.get(key)`; as in a Python dict built by `json.loads`, a repeated
key takes its last value. -/
def objGet (fields : List (String × Json)) (k : String) : Option Json :=
  (fields.reverse.find? (fun kv => kv.1 == k)).map (fun kv => kv.2)

/-- Model of Python `str.split` with a one-character separator: greedy
left-to-right splitting, keeping empty segments. -/
def splitOnChar (sep : Char) : List Char → List (List Char)
  | [] => [[]]
  | c :: cs =>
    match splitOnChar sep cs with
    | [] => if c = sep then [[], [c]] else [[c]]
    | g :: gs => if c = sep then [] :: g :: gs else (c :: g) :: gs

/-- PKCS7 padding to the 16-byte Fernet block size: append `k` copies of
the byte `k`, where `k` (between 1 and 16) completes the next block. -/
def pkcs7pad (bs : Bytes) : Bytes :=
  bs ++ List.replicate (16 - bs.length % 16) (16 - bs.length % 16)

/-- PKCS7 unpadding: read the final byte `k` (an empty input reads as the
invalid value 0), check that the last `k` bytes all equal `k` with `k`
between 1 and 16, and drop them; `none` models the padding error raised on
malformed plaintext. -/
def pkcs7unpad (bs : Bytes) : Option Bytes :=
  if 1 ≤ bs.getLastD 0 ∧ bs.getLastD 0 ≤ 16 ∧ bs.getLastD 0 ≤ bs.length ∧
      (bs.drop (bs.length - bs.getLastD 0)).all (fun b => b = bs.getLastD 0) then
    some (bs.take (bs.length - bs.getLastD 0))
  else none

/-- Pointwise exclusive-or of two equal-length byte blocks. -/
def xorBytes (a b : Bytes) : Bytes :=
  List.zipWith Nat.xor a b

/-- Split a byte string into 16-byte blocks (fuel-driven so that concrete
instances compute inside the kernel). -/
def chunksAux : Nat → Bytes → List Bytes
  | 0, _ => []
  | fuel + 1, l => if l = [] then [] else l.take 16 :: chunksAux fuel (l.drop 16)

/-- Split a byte string into 16-byte blocks. -/
def chunks16 (l : Bytes) : List Bytes :=
  chunksAux l.length l

/-- Cipher-block-chaining encryption over an abstract 16-byte block cipher
`E`: each plaintext block is xor-ed with the previous ciphertext block
(initially the initialisation vector) before `E` is applied. -/
def cbcEncChunks (E : Bytes → Bytes) : Bytes → List Bytes → List Bytes
  | _, [] => []
  | prev, b :: bs => E (xorBytes prev b) :: cbcEncChunks E (E (xorBytes prev b)) bs

/-- Cipher-block-chaining decryption over the inverse block cipher `D`. -/
def cbcDecChunks (D : Bytes → Bytes) : Bytes → List Bytes → List Bytes
  | _, [] => []
  | prev, c :: cs => xorBytes prev (D c) :: cbcDecChunks D c cs

/-- Modelled from the spec (Confidential Blob Store) and the Fernet scheme
behind the `enc` helper of `src/server/main.py`, whose cipher core lives in
the external `cryptography` library: AES128-CBC encryption of the PKCS7
padded plaintext under an abstract block cipher `E` with initialisation
vector `iv`, the vector prepended to the ciphertext. The version/timestamp
header and the HMAC tag of a Fernet token are elided: `decrypt` recomputes
and compares the tag, so on an honest round trip it never fails, and the
utf-8/base64 armor around the byte payload is likewise elided, as the
round-trip law is stated on byte strings. -/
def fernetEncrypt (E : Bytes → Bytes) (iv : Bytes) (x : Bytes) : Bytes :=
  iv ++ (cbcEncChunks E iv (chunks16 (pkcs7pad x))).flatten

/-- Modelled from the spec (Confidential Blob Store): the decryption half
of the Fernet scheme behind `dec`, over the inverse `D` of the block
cipher: strip the initialisation vector, CBC-decrypt, and remove the PKCS7
padding; `none` models `DecryptionError`. -/
def fernetDecrypt (D : Bytes → Bytes) (t : Bytes) : Option Bytes :=
  pkcs7unpad ((cbcDecChunks D (t.take 16) (chunks16 (t.drop 16))).flatten)

/-- A parsed token: the decoded header and payload maps, as returned by
`_parse_jws_unverified`. -/
structure JwsMeta where
  header : Json
  payload : Json
deriving Repr

/-- The token codec `_parse_jws_unverified` of `src/server/main.py`: split
the compact token on the dot delimiter, require exactly three segments,
base64url-decode the first two after restoring padding, and parse each as
utf-8 JSON; `none` models the `ValueError` (`MalformedToken`) exit. The
signature segment is never inspected. -/
def parse_jws_unverified (token : String) : Option JwsMeta :=
  match splitOnChar '.' token.data with
  | [h, p, _] =>
    (decodeSegment h).bind fun hb =>
      (jsonLoads hb).bind fun hj =>
        (decodeSegment p).bind fun pb =>
          (jsonLoads pb).map fun pj => ⟨hj, pj⟩
  | _ => none

/-- The single credential wire format of the registry. -/
inductive VCFormat where
  | jws : VCFormat
deriving DecidableEq, Repr

/-- The credential state machine states. -/
inductive CredentialStatus where
  | ACTIVE : CredentialStatus
  | REVOKED : CredentialStatus
deriving DecidableEq, Repr

/-- Row of the `holders` table. -/
structure Holder where
  id : String
  subject : String
  display_name : Option String
  created_at : PyDateTime
deriving DecidableEq, Repr

/-- Row of the `issuers` table. -/
structure Issuer where
  id : String
  issuer_id : String
  name : Option String
  created_at : PyDateTime
deriving DecidableEq, Repr

/-- Row of the `issuer_keys` table; `kid` is globally unique. -/
structure IssuerKey where
  id : String
  issuer_id_fk : String
  kid : String
  alg : String
  public_key_pem : String
  is_active : Bool
  revoked : Bool
  created_at : PyDateTime
deriving DecidableEq, Repr

/-- Row of the `credentials` table. -/
structure Credential where
  id : String
  jti : String
  format : VCFormat
  issuer_did : Option String
  holder_subject : Option String
  types : Option (List String)
  issued_at : Option PyDateTime
  not_before : Option PyDateTime
  expires_at : Option PyDateTime
  status : CredentialStatus
  revoked_at : Option PyDateTime
  revoke_reason : Option String
  raw_encrypted : String
  raw_sha256 : String
  created_at : PyDateTime
deriving DecidableEq, Repr

/-- Row of the `revoked_credentials` table, the revocation ledger. -/
structure RevokedCredential where
  id : String
  jti : String
  revoked_at : PyDateTime
  reason : Option String
deriving DecidableEq, Repr

/-- Row of the `scans` table, the scan-event audit log. -/
structure Scan where
  id : String
  jti : String
  verified : Bool
  scanned_at : PyDateTime
deriving DecidableEq, Repr

/-- The committed contents of the relational store. -/
structure DBState where
  holders : List Holder
  issuers : List Issuer
  issuerKeys : List IssuerKey
  credentials : List Credential
  revoked : List RevokedCredential
  scans : List Scan
deriving DecidableEq, Repr

/-- The empty database, the state before any operation runs. -/
def DBState.init : DBState :=
  ⟨[], [], [], [], [], []⟩

/-- The error outcomes of the handlers. An `HTTPException` raised before
any write maps to an error value here, and an error result carries no
successor state, so an erroring operation mutates nothing by construction.
`duplicateKeyId` is structured so that the conflicting owner reported in
the Python detail string is part of the error value. -/
inductive ApiError where
  | notFound (detail : String) : ApiError
  | duplicateKeyId (kid : String) (ownerIssuerId : String) : ApiError
  | badRequest (detail : String) : ApiError
  | internalError : ApiError
deriving DecidableEq, Repr

/-- Response of the holder-creation endpoint. -/
structure HolderOut where
  id : String
  subject : String
  display_name : Option String
  created_at : PyDateTime
deriving DecidableEq, Repr

/-- Response of the issuer-registration endpoint. -/
structure IssuerOut where
  id : String
  issuer_id : String
  name : Option String
deriving DecidableEq, Repr

/-- Response of the credential-revocation endpoint (`already` models the
presence of the `already: True` field of the JSON reply). -/
structure RevokeOut where
  already : Bool
deriving DecidableEq, Repr

/-- Response of the key-revocation endpoint, reduced to its `already`
marker; the echoed message and reason strings carry no state. -/
structure RevokeKeyOut where
  already : Bool
deriving DecidableEq, Repr

/-- One entry of the trust bundle. -/
structure TrustBundleItem where
  issuerId : String
  kid : String
  alg : String
  publicKeyPem : String
deriving DecidableEq, Repr

/-- The trust-bundle snapshot. -/
structure TrustBundleOut where
  version : Nat
  issuedAt : PyDateTime
  issuers : List TrustBundleItem
deriving DecidableEq, Repr

/-- The revocation-list snapshot. -/
structure RevocationListOut where
  version : Nat
  issuedAt : PyDateTime
  revokedJti : List String
deriving DecidableEq, Repr

/-- Response of the batch endpoints. -/
structure BatchOut where
  uploaded : Nat
  total : Nat
deriving DecidableEq, Repr

/-- The `create_holder` handler: idempotent on `subject`; a fresh row takes
the supplied uuid and clock values. -/
def create_holder (subject : String) (display_name : Option String) (newId : String)
    (now : PyDateTime) (s : DBState) : HolderOut × DBState :=
  match s.holders.find? (fun h => h.subject == subject) with
  | some h => (⟨h.id, h.subject, h.display_name, h.created_at⟩, s)
  | none =>
    (⟨newId, subject, display_name, now⟩,
      { s with holders := s.holders ++ [⟨newId, subject, display_name, now⟩] })

/-- The `add_issuer` handler: idempotent on `issuer_id`. -/
def add_issuer (issuer_id : String) (name : Option String) (newId : String)
    (now : PyDateTime) (s : DBState) : IssuerOut × DBState :=
  match s.issuers.find? (fun i => i.issuer_id == issuer_id) with
  | some i => (⟨i.id, i.issuer_id, i.name⟩, s)
  | none =>
    (⟨newId, issuer_id, name⟩,
      { s with issuers := s.issuers ++ [⟨newId, issuer_id, name, now⟩] })

/-- The `add_issuer_key` handler: 404 when the target issuer is
unregistered, then a global uniqueness check on `kid` that reports the
issuer owning the conflicting key (409), otherwise insert the new key with
`revoked = false`. The owner lookup dereferences the existing key's
foreign key; a dangling foreign key (impossible in reachable states) maps
to `internalError`, mirroring the attribute error the Python would raise. -/
def add_issuer_key (issuer_id kid alg public_key_pem : String) (is_active : Bool)
    (newId : String) (now : PyDateTime) (s : DBState) : Except ApiError (String × DBState) :=
  match s.issuers.find? (fun i => i.issuer_id == issuer_id) with
  | none => .error (.notFound "Issuer not found")
  | some iss =>
    match s.issuerKeys.find? (fun k => k.kid == kid) with
    | some existing =>
      match s.issuers.find? (fun i => i.id == existing.issuer_id_fk) with
      | some owner => .error (.duplicateKeyId kid owner.issuer_id)
      | none => .error .internalError
    | none =>
      .ok (newId,
        { s with issuerKeys :=
            s.issuerKeys ++ [⟨newId, iss.id, kid, alg, public_key_pem, is_active, false, now⟩] })

/-- The trust-bundle contribution of one key row: the inner join of
`issuer_keys` with `issuers` filtered on `is_active` and not `revoked`,
as one `filterMap` step over the key rows. -/
def trustBundleItemOf (s : DBState) (k : IssuerKey) : Option TrustBundleItem :=
  if k.is_active && !k.revoked then
    (s.issuers.find? (fun i => i.id == k.issuer_id_fk)).map
      (fun i => ⟨i.issuer_id, k.kid, k.alg, k.public_key_pem⟩)
  else none

/-- The `get_trust_bundle` handler: active, non-revoked keys joined to
their owning issuer, with `version` defined as the item count. -/
def get_trust_bundle (now : PyDateTime) (s : DBState) : TrustBundleOut :=
  let items := s.issuerKeys.filterMap (trustBundleItemOf s)
  ⟨items.length, now, items⟩

/-- The `revocations` handler: every ledger `jti`, with `version` the list
length. -/
def revocations (now : PyDateTime) (s : DBState) : RevocationListOut :=
  let out := s.revoked.map (fun e => e.jti)
  ⟨out.length, now, out⟩

/-- The revocation mutation applied to the found credential row. -/
def markRevoked (now : PyDateTime) (reason : Option String) (c : Credential) : Credential :=
  { c with status := .REVOKED, revoked_at := some now, revoke_reason := reason }

/-- The `revoke_credential` handler: 404 when no credential has the given
`jti`; an existing ledger entry short-circuits to `already = true` with no
writes; otherwise the status flip and the ledger append commit together
(the single `db.commit()` of the handler is the single state update here). -/
def revoke_credential (jti : String) (reason : Option String) (now : PyDateTime)
    (entryId : String) (s : DBState) : Except ApiError (RevokeOut × DBState) :=
  match s.credentials.find? (fun c => c.jti == jti) with
  | none => .error (.notFound "Credential not found")
  | some _ =>
    if s.revoked.any (fun e => e.jti == jti) then .ok (⟨true⟩, s)
    else
      .ok (⟨false⟩,
        { s with
          credentials := updateFirst (fun c => c.jti == jti) (markRevoked now reason) s.credentials,
          revoked := s.revoked ++ [⟨entryId, jti, now, reason⟩] })

/-- The `revoke_issuer_key` handler: 404 on an unknown `kid`, idempotent on
an already revoked key, otherwise flip `revoked` on the found row. -/
def revoke_issuer_key (kid : String) (s : DBState) : Except ApiError (RevokeKeyOut × DBState) :=
  match s.issuerKeys.find? (fun k => k.kid == kid) with
  | none => .error (.notFound "Issuer key not found")
  | some k =>
    if k.revoked then .ok (⟨true⟩, s)
    else
      .ok (⟨false⟩,
        { s with issuerKeys :=
            updateFirst (fun k => k.kid == kid) (fun k => { k with revoked := true }) s.issuerKeys })

/-- The `get_revoked_issuer_keys` handler: the `kid` values of revoked keys
and their count. -/
def get_revoked_issuer_keys (s : DBState) : List String × Nat :=
  let kids := (s.issuerKeys.filter (fun k => k.revoked)).map (fun k => k.kid)
  (kids, kids.length)

/-- One submitted scan record, the typed shape of the `Dict[str, Any]`
items of the scan batch: each field is present or absent. -/
structure ScanItem where
  jti : Option String
  verified : Option Bool
  scanned_at : Option String
deriving DecidableEq, Repr

/-- Processing of one scan item: the row is constructed first (defaulting
a missing `jti` to `unknown` and a missing `verified` to `false`, and
consuming one uuid), then a present `scanned_at` string is parsed after
the `Z` replacement; a parse failure discards the constructed row, which
models the per-item `except` of the handler. -/
def scanItemStep (now : PyDateTime) (newId : String) (item : ScanItem) : Option Scan :=
  match item.scanned_at with
  | none => some ⟨newId, item.jti.getD "unknown", item.verified.getD false, now⟩
  | some ts =>
    match fromisoformat (replaceZ ts.data) with
    | none => none
    | some dt => some ⟨newId, item.jti.getD "unknown", item.verified.getD false, dt⟩

/-- Left-to-right processing of the scan batch, counting the uploaded items
and collecting the rows to insert; the uuid counter advances on every item
because every item constructs a row before its timestamp can fail. -/
def processScanItems (now : PyDateTime) (uuids : Nat → String) :
    List ScanItem → Nat → Nat × List Scan
  | [], _ => (0, [])
  | item :: rest, k =>
    match scanItemStep now (uuids k) item with
    | some sc =>
      let r := processScanItems now uuids rest (k + 1)
      (r.1 + 1, sc :: r.2)
    | none => processScanItems now uuids rest (k + 1)

/-- The `upload_scan_batch` handler: per-item failures are skipped, the
surviving rows commit together (the scan table has no uniqueness
constraint, so the final commit cannot violate one). -/
def upload_scan_batch (items : List ScanItem) (now : PyDateTime) (uuids : Nat → String)
    (s : DBState) : BatchOut × DBState :=
  (⟨(processScanItems now uuids items 0).1, items.length⟩,
    { s with scans := s.scans ++ (processScanItems now uuids items 0).2 })

/-- One submitted credential record, reduced to the only field the handler
reads; `none` models an item without a `jws` key (which `.get` turns into
the empty-string default). -/
structure CredItem where
  jws : Option String
deriving DecidableEq, Repr

/-- Resolution of the `jti` claim by `payload.get(jti) or str(uuid4())`:
the falsy claims (absent, null, empty string) yield a fresh uuid;
a non-string truthy claim, which would flow into a string column and fail
at the store, is modelled as a per-item failure and never exercised. -/
inductive JtiRes where
  | fresh : JtiRes
  | claimed (j : String) : JtiRes
  | unsupported : JtiRes
deriving DecidableEq, Repr

/-- Resolution of the `jti` claim of a decoded payload object. -/
def jtiClaim (fields : List (String × Json)) : JtiRes :=
  match objGet fields "jti" with
  | some (.str sv) => if sv = "" then .fresh else .claimed sv
  | some .null => .fresh
  | none => .fresh
  | some _ => .unsupported

/-- The string value of a payload claim (`iss`, `sub`); a non-string claim
is modelled as absent. -/
def strClaim (fields : List (String × Json)) (k : String) : Option String :=
  match objGet fields k with
  | some (.str sv) => some sv
  | _ => none

/-- The credential row built by the batch handler: only identity, parties,
ciphertext, fingerprint and the `ACTIVE` status are populated (the code
comments call this the simplified version); the validity-window and types
columns stay null. -/
def credBuild (encF hashF : String → String) (now : PyDateTime)
    (fields : List (String × Json)) (jws : String) (rowId jti : String) : Credential :=
  ⟨rowId, jti, .jws, strClaim fields "iss", strClaim fields "sub",
    none, none, none, none, .ACTIVE, none, none, encF jws, hashF jws, now⟩

/-- Processing of one credential item against the committed rows `base`
(with `autoflush` off, the per-item existence query sees only committed
rows, never the pending inserts of the same batch): skip empty or
unparseable tokens and duplicates of an existing `jti`; otherwise build
the row. The second component is the advanced uuid counter. -/
def credItemStep (encF hashF : String → String) (uuids : Nat → String) (now : PyDateTime)
    (base : List Credential) (item : CredItem) (k : Nat) : Option Credential × Nat :=
  match item.jws with
  | none => (none, k)
  | some jws =>
    if jws = "" then (none, k)
    else
      match parse_jws_unverified jws with
      | none => (none, k)
      | some meta =>
        match meta.payload with
        | .obj fields =>
          match jtiClaim fields with
          | .unsupported => (none, k)
          | .fresh =>
            if base.any (fun c => c.jti == uuids k) then (none, k + 1)
            else (some (credBuild encF hashF now fields jws (uuids (k + 1)) (uuids k)), k + 2)
          | .claimed j =>
            if base.any (fun c => c.jti == j) then (none, k)
            else (some (credBuild encF hashF now fields jws (uuids k) j), k + 1)
        | _ => (none, k)

/-- Left-to-right processing of the credential batch. -/
def processCredItems (encF hashF : String → String) (uuids : Nat → String) (now : PyDateTime)
    (base : List Credential) : List CredItem → Nat → Nat × List Credential
  | [], _ => (0, [])
  | item :: rest, k =>
    match credItemStep encF hashF uuids now base item k with
    | (some c, k1) =>
      let r := processCredItems encF hashF uuids now base rest k1
      (r.1 + 1, c :: r.2)
    | (none, k1) => processCredItems encF hashF uuids now base rest k1

/-- The `upload_credential_batch` handler: per-item failures and duplicates
are skipped, the surviving rows commit together, and the commit enforces
the unique constraint on `jti` over the inserted rows (two pending rows
sharing a `jti`, possible because the per-item check sees only committed
rows, roll the whole batch back into the 400 branch). -/
def upload_credential_batch (encF hashF : String → String) (uuids : Nat → String)
    (now : PyDateTime) (items : List CredItem) (s : DBState) :
    Except ApiError (BatchOut × DBState) :=
  if ((processCredItems encF hashF uuids now s.credentials items 0).2.map
        (fun c => c.jti)).Nodup ∧
      ∀ c ∈ (processCredItems encF hashF uuids now s.credentials items 0).2,
        ∀ b ∈ s.credentials, b.jti ≠ c.jti then
    .ok (⟨(processCredItems encF hashF uuids now s.credentials items 0).1, items.length⟩,
      { s with credentials :=
          s.credentials ++ (processCredItems encF hashF uuids now s.credentials items 0).2 })
  else .error (.badRequest "Batch upload failed")

/-- Uniqueness of `token_id` over the credential table (its unique
constraint). -/
def jtiUnique (s : DBState) : Prop :=
  (s.credentials.map (fun c => c.jti)).Nodup

/-- A credential is `REVOKED` exactly when the revocation ledger holds an
entry with its `token_id`. -/
def statusMatchesLedger (s : DBState) : Prop :=
  ∀ c ∈ s.credentials, (c.status = .REVOKED ↔ ∃ e ∈ s.revoked, e.jti = c.jti)

/-- Every ledger entry names a stored credential (credentials are never
deleted and an entry is only written while its credential exists). -/
def ledgerHasCredential (s : DBState) : Prop :=
  ∀ e ∈ s.revoked, ∃ c ∈ s.credentials, c.jti = e.jti

/-- The inductive invariant of the registry state. -/
def RegistryInv (s : DBState) : Prop :=
  jtiUnique s ∧ statusMatchesLedger s ∧ ledgerHasCredential s

/-- One successful operation of the registry, over arbitrary request
arguments, uuid/clock supplies and injected blob-store functions; an
operation that raises leaves no successor state and hence contributes no
step. Read-only endpoints (trust bundle, revocation list, revoked-kid
list) return no state and likewise contribute no step. -/
inductive Step : DBState → DBState → Prop where
  | holder (subject : String) (dn : Option String) (newId : String) (now : PyDateTime)
      (s : DBState) : Step s (create_holder subject dn newId now s).2
  | issuer (issuer_id : String) (name : Option String) (newId : String) (now : PyDateTime)
      (s : DBState) : Step s (add_issuer issuer_id name newId now s).2
  | issuerKey (issuer_id kid alg pem : String) (ia : Bool) (newId : String) (now : PyDateTime)
      (s : DBState) (r : String) (t : DBState)
      (h : add_issuer_key issuer_id kid alg pem ia newId now s = .ok (r, t)) : Step s t
  | revokeCred (jti : String) (reason : Option String) (now : PyDateTime) (entryId : String)
      (s : DBState) (r : RevokeOut) (t : DBState)
      (h : revoke_credential jti reason now entryId s = .ok (r, t)) : Step s t
  | revokeKey (kid : String) (s : DBState) (r : RevokeKeyOut) (t : DBState)
      (h : revoke_issuer_key kid s = .ok (r, t)) : Step s t
  | scanBatch (items : List ScanItem) (now : PyDateTime) (uuids : Nat → String)
      (s : DBState) : Step s (upload_scan_batch items now uuids s).2
  | credBatch (encF hashF : String → String) (uuids : Nat → String) (now : PyDateTime)
      (items : List CredItem) (s : DBState) (r : BatchOut) (t : DBState)
      (h : upload_credential_batch encF hashF uuids now items s = .ok (r, t)) : Step s t

/-- The states reachable from the empty database by any sequence of
operations. -/
inductive Reachable : DBState → Prop where
  | init : Reachable DBState.init
  | step (s t : DBState) (hs : Reachable s) (h : Step s t) : Reachable t

/-! Concrete fixtures used by witnesses and counterexamples. -/

/-- Fixture timestamp. -/
def dt0 : PyDateTime :=
  ⟨2024, 1, 1, 0, 0, 0, 0, none⟩

/-- A compact test token; its header decodes to the object with `alg`
`none` and `typ` `JWT`, and its payload decodes to the object with claims
`jti` = `abc`, `iss` = `did:issuer:1`, `sub` = `did:holder:9` and a nested
`vc` object whose `type` is `Diploma`. -/
def tokenAbc : String :=
  "eyJhbGciOiJub25lIiwidHlwIjoiSldUIn0.eyJqdGkiOiJhYmMiLCJpc3MiOiJkaWQ6aXNzdWVyOjEiLCJzdWIiOiJkaWQ6aG9sZGVyOjkiLCJ2YyI6eyJ0eXBlIjoiRGlwbG9tYSJ9fQ.sig"

/-- Fixture credential row with token id `abc`. -/
def cred0 : Credential :=
  ⟨"c1", "abc", .jws, some "did:issuer:1", some "did:holder:9",
    none, none, none, none, .ACTIVE, none, none, "ciphertext", "fingerprint", dt0⟩

/-- Fixture state holding exactly `cred0`. -/
def s0 : DBState :=
  ⟨[], [], [], [cred0], [], []⟩

/-- Fixture issuer owning the fixture keys. -/
def issuerA : Issuer :=
  ⟨"I1", "did:ex:a", none, dt0⟩

/-- Second fixture issuer, owning no keys. -/
def issuerB : Issuer :=
  ⟨"I2", "did:ex:b", none, dt0⟩

/-- Fixture key: active and not revoked, owned by `issuerA`. -/
def keyA : IssuerKey :=
  ⟨"K1", "I1", "kid-1", "RS256", "PEM-A", true, false, dt0⟩

/-- Fixture key: active but revoked, owned by `issuerA`. -/
def keyR : IssuerKey :=
  ⟨"K2", "I1", "kid-2", "RS256", "PEM-R", true, true, dt0⟩

/-- Fixture state with two issuers and the two fixture keys. -/
def sKeys : DBState :=
  ⟨[], [issuerA, issuerB], [keyA, keyR], [], [], []⟩

/-- The decoded payload fields of `tokenAbc`. -/
def payloadAbcFields : List (String × Json) :=
  [("jti", .str "abc"), ("iss", .str "did:issuer:1"), ("sub", .str "did:holder:9"),
    ("vc", .obj [("type", .str "Diploma")])]

/-- The decoded header of `tokenAbc`. -/
def headerAbc : Json :=
  .obj [("alg", .str "none"), ("typ", .str "JWT")]

/-- The decoded payload of `tokenAbc`. -/
def payloadAbc : Json :=
  .obj payloadAbcFields

/-- A scan item whose timestamp, when present, parses: the hypothesis
under which the scan-batch handler persists the item. -/
def scanTimestampOk (item : ScanItem) : Prop :=
  ∀ ts, item.scanned_at = some ts → (fromisoformat (replaceZ ts.data)).isSome

/-! Properties of the Confidential Blob Store model. -/

theorem pkcs7unpad_pkcs7pad (x : Bytes) : pkcs7unpad (pkcs7pad x) = some x := by
  have hmod := Nat.mod_lt x.length (show 0 < 16 by decide)
  set k := 16 - x.length % 16 with hkdef
  have hk1 : 1 ≤ k := by omega
  have hk16 : k ≤ 16 := by omega
  have hpad : pkcs7pad x = x ++ List.replicate k k := rfl
  have hlen : (pkcs7pad x).length = x.length + k := by rw [hpad]; simp
  have hrep : List.replicate k k = List.replicate (k - 1) k ++ [k] := by
    have h1 := List.replicate_succ' (k - 1) k
    rw [show (k - 1) + 1 = k from by omega] at h1
    exact h1
  have hlastD : (pkcs7pad x).getLastD 0 = k := by
    rw [hpad, hrep, ← List.append_assoc, List.getLastD_eq_getLast?, List.getLast?_concat]
    rfl
  have hsub : x.length + k - k = x.length := by omega
  have hdrop : (pkcs7pad x).drop x.length = List.replicate k k := by
    rw [hpad]
    exact List.drop_left x _
  have htake : (pkcs7pad x).take x.length = x := by
    rw [hpad]
    exact List.take_left x _
  unfold pkcs7unpad
  rw [hlastD, hlen, hsub, hdrop, htake, if_pos]
  refine ⟨hk1, hk16, by omega, ?_⟩
  simp [List.all_eq_true, List.mem_replicate]

theorem chunksAux_flatten_blocks (cs : List Bytes) (h : ∀ c ∈ cs, c.length = 16) :
    ∀ fuel, cs.flatten.length ≤ fuel → chunksAux fuel cs.flatten = cs := by
  induction cs with
  | nil =>
    intro fuel _
    cases fuel <;> simp [chunksAux]
  | cons c rest ih =>
    intro fuel hfuel
    have hc : c.length = 16 := h c (by simp)
    have hflat : (c :: rest).flatten = c ++ rest.flatten := by simp
    rw [hflat] at hfuel ⊢
    have hlen : (c ++ rest.flatten).length = 16 + rest.flatten.length := by
      simp [hc]
    cases fuel with
    | zero => omega
    | succ f =>
      have hne : c ++ rest.flatten ≠ [] := by
        intro habs
        have := congrArg List.length habs
        simp [hc] at this
      rw [chunksAux, if_neg hne]
      have htake : (c ++ rest.flatten).take 16 = c := by
        rw [← hc]
        exact List.take_left c rest.flatten
      have hdrop : (c ++ rest.flatten).drop 16 = rest.flatten := by
        rw [← hc]
        exact List.drop_left c rest.flatten
      rw [htake, hdrop, ih (fun b hb => h b (by simp [hb])) f (by omega)]

theorem chunks16_flatten_blocks (cs : List Bytes) (h : ∀ c ∈ cs, c.length = 16) :
    chunks16 cs.flatten = cs :=
  chunksAux_flatten_blocks cs h _ le_rfl

theorem flatten_chunksAux : ∀ fuel (l : Bytes), l.length ≤ fuel →
    (chunksAux fuel l).flatten = l := by
  intro fuel
  induction fuel with
  | zero =>
    intro l hl
    have : l = [] := List.eq_nil_of_length_eq_zero (by omega)
    simp [this, chunksAux]
  | succ f ih =>
    intro l hl
    by_cases hnil : l = []
    · simp [hnil, chunksAux]
    · rw [chunksAux, if_neg hnil]
      have hpos : 0 < l.length := List.length_pos.mpr hnil
      have : (l.drop 16).length ≤ f := by
        rw [List.length_drop]
        omega
      simp only [List.flatten_cons, ih (l.drop 16) this]
      exact List.take_append_drop 16 l

theorem flatten_chunks16 (l : Bytes) : (chunks16 l).flatten = l :=
  flatten_chunksAux _ l le_rfl

theorem chunksAux_length_blocks : ∀ fuel (l : Bytes), l.length ≤ fuel → 16 ∣ l.length →
    ∀ c ∈ chunksAux fuel l, c.length = 16 := by
  intro fuel
  induction fuel with
  | zero =>
    intro l _ _ c hc
    simp [chunksAux] at hc
  | succ f ih =>
    intro l hl hdvd c hc
    by_cases hnil : l = []
    · simp [hnil, chunksAux] at hc
    · rw [chunksAux, if_neg hnil, List.mem_cons] at hc
      have hpos : 0 < l.length := List.length_pos.mpr hnil
      have h16 : 16 ≤ l.length := Nat.le_of_dvd hpos hdvd
      rcases hc with hc | hc
      · rw [hc, List.length_take]
        omega
      · refine ih (l.drop 16) ?_ ?_ c hc
        · rw [List.length_drop]; omega
        · rw [List.length_drop]
          exact Nat.dvd_sub' hdvd (by norm_num)

theorem pkcs7pad_length_dvd (x : Bytes) : 16 ∣ (pkcs7pad x).length := by
  unfold pkcs7pad
  simp only [List.length_append, List.length_replicate]
  have := Nat.mod_lt x.length (show 0 < 16 by decide)
  omega

theorem chunks16_pkcs7pad_blocks (x : Bytes) : ∀ c ∈ chunks16 (pkcs7pad x), c.length = 16 :=
  chunksAux_length_blocks _ _ le_rfl (pkcs7pad_length_dvd x)

theorem xorBytes_cancel (a : Bytes) : ∀ b : Bytes, a.length = b.length →
    xorBytes a (xorBytes a b) = b := by
  induction a with
  | nil =>
    intro b hb
    have : b = [] := List.eq_nil_of_length_eq_zero (by simpa using hb.symm)
    simp [this, xorBytes]
  | cons a0 as ih =>
    intro b hb
    cases b with
    | nil => simp at hb
    | cons b0 bs =>
      simp only [xorBytes, List.zipWith_cons_cons]
      have hx : Nat.xor a0 (Nat.xor a0 b0) = b0 := Nat.xor_cancel_left a0 b0
      rw [hx]
      have hlen : as.length = bs.length := by simpa using hb
      have htail := ih bs hlen
      simp only [xorBytes] at htail
      rw [htail]

theorem xorBytes_length (a b : Bytes) : (xorBytes a b).length = min a.length b.length := by
  simp [xorBytes]

theorem cbcEncChunks_block_lengths (E : Bytes → Bytes)
    (hE : ∀ b : Bytes, b.length = 16 → (E b).length = 16) :
    ∀ (bs : List Bytes) (prev : Bytes), prev.length = 16 → (∀ b ∈ bs, b.length = 16) →
    ∀ c ∈ cbcEncChunks E prev bs, c.length = 16 := by
  intro bs
  induction bs with
  | nil =>
    intro prev _ _ c hc
    simp [cbcEncChunks] at hc
  | cons b rest ih =>
    intro prev hprev hall c hc
    have hb : b.length = 16 := hall b (by simp)
    have hxlen : (xorBytes prev b).length = 16 := by
      rw [xorBytes_length, hprev, hb]
      simp
    have hhead : (E (xorBytes prev b)).length = 16 := hE _ hxlen
    rw [cbcEncChunks, List.mem_cons] at hc
    rcases hc with hc | hc
    · rw [hc]; exact hhead
    · exact ih (E (xorBytes prev b)) hhead (fun x hx => hall x (by simp [hx])) c hc

theorem cbcDecChunks_cbcEncChunks (E D : Bytes → Bytes)
    (hED : ∀ b : Bytes, b.length = 16 → D (E b) = b)
    (hE : ∀ b : Bytes, b.length = 16 → (E b).length = 16) :
    ∀ (bs : List Bytes) (prev : Bytes), prev.length = 16 → (∀ b ∈ bs, b.length = 16) →
    cbcDecChunks D prev (cbcEncChunks E prev bs) = bs := by
  intro bs
  induction bs with
  | nil => intro prev _ _; simp [cbcEncChunks, cbcDecChunks]
  | cons b rest ih =>
    intro prev hprev hall
    have hb : b.length = 16 := hall b (by simp)
    have hxlen : (xorBytes prev b).length = 16 := by
      rw [xorBytes_length, hprev, hb]
      simp
    rw [cbcEncChunks, cbcDecChunks, hED _ hxlen, xorBytes_cancel prev b (by omega),
      ih (E (xorBytes prev b)) (hE _ hxlen) (fun y hy => hall y (by simp [hy]))]

/-- C6: for every byte string `x`, decrypting the encryption of `x` under
the modelled Fernet scheme (CBC mode with PKCS7 padding over any 16-byte
block cipher `E` with inverse `D`, the scheme behind `enc`/`dec`) returns
exactly `x`, so the stored `encrypted_payload` decrypts to the submitted
token text. -/
theorem fernet_roundtrip (E D : Bytes → Bytes) (iv x : Bytes)
    (hED : ∀ b : Bytes, b.length = 16 → D (E b) = b)
    (hE : ∀ b : Bytes, b.length = 16 → (E b).length = 16)
    (hiv : iv.length = 16) :
    fernetDecrypt D (fernetEncrypt E iv x) = some x := by
  unfold fernetEncrypt fernetDecrypt
  have htake : (iv ++ (cbcEncChunks E iv (chunks16 (pkcs7pad x))).flatten).take 16 = iv := by
    rw [← hiv]
    exact List.take_left _ _
  have hdrop : (iv ++ (cbcEncChunks E iv (chunks16 (pkcs7pad x))).flatten).drop 16
      = (cbcEncChunks E iv (chunks16 (pkcs7pad x))).flatten := by
    rw [← hiv]
    exact List.drop_left _ _
  rw [htake, hdrop]
  rw [chunks16_flatten_blocks _
    (cbcEncChunks_block_lengths E hE _ iv hiv (chunks16_pkcs7pad_blocks x))]
  rw [cbcDecChunks_cbcEncChunks E D hED hE _ iv hiv (chunks16_pkcs7pad_blocks x)]
  rw [flatten_chunks16]
  exact pkcs7unpad_pkcs7pad x

/-- Witness for C6 at the identity block cipher, a zero initialisation
vector and a concrete three-byte plaintext. -/
theorem fernet_roundtrip_witness :
    fernetDecrypt (fun b => b) (fernetEncrypt (fun b => b) (List.replicate 16 0) [104, 105, 33])
      = some [104, 105, 33] :=
  fernet_roundtrip (fun b => b) (fun b => b) (List.replicate 16 0) [104, 105, 33]
    (fun _ _ => rfl) (fun _ hb => hb) (by simp)

/-! Helper lemmas about `updateFirst` and the per-operation preservation of
the registry invariant. -/

theorem updateFirst_map_eq {α β : Type _} (p : α → Bool) (f : α → α) (g : α → β)
    (hf : ∀ x, g (f x) = g x) : ∀ l : List α, (updateFirst p f l).map g = l.map g := by
  intro l
  induction l with
  | nil => rfl
  | cons a t ih =>
    rw [updateFirst]
    by_cases hp : p a
    · rw [if_pos hp, List.map_cons, List.map_cons, hf]
    · rw [if_neg hp, List.map_cons, List.map_cons, ih]

theorem exists_mem_updateFirst {α : Type _} (p : α → Bool) (f : α → α) :
    ∀ (l : List α), ∀ x ∈ l, ∃ y ∈ updateFirst p f l, y = x ∨ y = f x := by
  intro l
  induction l with
  | nil => intro x hx; simp at hx
  | cons a t ih =>
    intro x hx
    rw [List.mem_cons] at hx
    rw [updateFirst]
    by_cases hp : p a
    · rw [if_pos hp]
      rcases hx with rfl | hx
      · exact ⟨f x, by simp, Or.inr rfl⟩
      · exact ⟨x, by simp [hx], Or.inl rfl⟩
    · rw [if_neg hp]
      rcases hx with rfl | hx
      · exact ⟨x, by simp, Or.inl rfl⟩
      · obtain ⟨y, hy, hyx⟩ := ih x hx
        exact ⟨y, by simp [hy], hyx⟩

theorem updateFirst_jti_eq_map (j : String) (f : Credential → Credential) :
    ∀ l : List Credential, (l.map (fun c => c.jti)).Nodup →
      updateFirst (fun c => c.jti == j) f l
        = l.map (fun c => if c.jti == j then f c else c) := by
  intro l
  induction l with
  | nil => intro _; rfl
  | cons a t ih =>
    intro hnd
    rw [List.map_cons, List.nodup_cons] at hnd
    obtain ⟨hna, hndt⟩ := hnd
    rw [updateFirst, List.map_cons]
    by_cases hp : (a.jti == j) = true
    · rw [if_pos hp, if_pos hp]
      have haj : a.jti = j := by simpa using hp
      have hne : ∀ x ∈ t, (x.jti == j) = false := by
        intro x hx
        have hxj : x.jti ≠ j := by
          intro he
          exact hna (haj ▸ he ▸ List.mem_map_of_mem (fun c => c.jti) hx)
        simpa using hxj
      have hmap : t.map (fun c => if c.jti == j then f c else c) = t := by
        have h1 : t.map (fun c => if c.jti == j then f c else c) = t.map id := by
          apply List.map_congr_left
          intro x hx
          simp [hne x hx]
        rw [h1, List.map_id]
      rw [hmap]
    · rw [if_neg hp, if_neg hp, ih hndt]

theorem regInv_of_eq {s t : DBState} (hc : t.credentials = s.credentials)
    (hr : t.revoked = s.revoked) (h : RegistryInv s) : RegistryInv t := by
  unfold RegistryInv jtiUnique statusMatchesLedger ledgerHasCredential at h ⊢
  rw [hc, hr]
  exact h

theorem create_holder_fields (subject : String) (dn : Option String) (newId : String)
    (now : PyDateTime) (s : DBState) :
    (create_holder subject dn newId now s).2.credentials = s.credentials ∧
    (create_holder subject dn newId now s).2.revoked = s.revoked := by
  unfold create_holder
  split <;> simp

theorem add_issuer_fields (issuer_id : String) (name : Option String) (newId : String)
    (now : PyDateTime) (s : DBState) :
    (add_issuer issuer_id name newId now s).2.credentials = s.credentials ∧
    (add_issuer issuer_id name newId now s).2.revoked = s.revoked := by
  unfold add_issuer
  split <;> simp

theorem add_issuer_key_ok_fields {ii kid alg pem : String} {ia : Bool} {newId : String}
    {now : PyDateTime} {s : DBState} {r : String} {t : DBState}
    (h : add_issuer_key ii kid alg pem ia newId now s = .ok (r, t)) :
    t.credentials = s.credentials ∧ t.revoked = s.revoked := by
  unfold add_issuer_key at h
  split at h
  · simp at h
  · split at h
    · split at h <;> simp at h
    · cases h
      exact ⟨rfl, rfl⟩

theorem revoke_issuer_key_ok_fields {kid : String} {s : DBState} {r : RevokeKeyOut}
    {t : DBState} (h : revoke_issuer_key kid s = .ok (r, t)) :
    t.credentials = s.credentials ∧ t.revoked = s.revoked := by
  unfold revoke_issuer_key at h
  split at h
  · simp at h
  · split at h
    · cases h
      exact ⟨rfl, rfl⟩
    · cases h
      exact ⟨rfl, rfl⟩

theorem upload_scan_batch_fields (items : List ScanItem) (now : PyDateTime)
    (uuids : Nat → String) (s : DBState) :
    (upload_scan_batch items now uuids s).2.credentials = s.credentials ∧
    (upload_scan_batch items now uuids s).2.revoked = s.revoked :=
  ⟨rfl, rfl⟩

theorem credItemStep_sound {encF hashF : String → String} {uuids : Nat → String}
    {now : PyDateTime} {base : List Credential} {item : CredItem} {k : Nat}
    {c : Credential} {k1 : Nat}
    (h : credItemStep encF hashF uuids now base item k = (some c, k1)) :
    c.status = .ACTIVE ∧ ∀ b ∈ base, b.jti ≠ c.jti := by
  unfold credItemStep at h
  split at h
  · simp at h
  · split at h
    · simp at h
    · split at h
      · simp at h
      · split at h
        · split at h
          · simp at h
          · split at h
            · simp at h
            · rename_i hany
              cases h
              refine ⟨rfl, ?_⟩
              intro b hb
              simp only [Bool.not_eq_true, List.any_eq_false] at hany
              have hbj := hany b hb
              simpa [credBuild] using hbj
          · split at h
            · simp at h
            · rename_i hany
              cases h
              refine ⟨rfl, ?_⟩
              intro b hb
              simp only [Bool.not_eq_true, List.any_eq_false] at hany
              have hbj := hany b hb
              simpa [credBuild] using hbj
        · simp at h

theorem processCredItems_sound {encF hashF : String → String} {uuids : Nat → String}
    {now : PyDateTime} {base : List Credential} :
    ∀ (items : List CredItem) (k : Nat),
      ∀ c ∈ (processCredItems encF hashF uuids now base items k).2,
        c.status = .ACTIVE ∧ ∀ b ∈ base, b.jti ≠ c.jti := by
  intro items
  induction items with
  | nil => intro k c hc; simp [processCredItems] at hc
  | cons item rest ih =>
    intro k c hc
    rw [processCredItems] at hc
    rcases hstep : credItemStep encF hashF uuids now base item k with ⟨oc, k1⟩
    rw [hstep] at hc
    cases oc with
    | none => exact ih k1 c hc
    | some c0 =>
      simp only [List.mem_cons] at hc
      rcases hc with rfl | hc
      · exact credItemStep_sound hstep
      · exact ih k1 c hc

theorem regInv_revokeCred {jti : String} {reason : Option String} {now : PyDateTime}
    {entryId : String} {s : DBState} {r : RevokeOut} {t : DBState}
    (h : revoke_credential jti reason now entryId s = .ok (r, t))
    (hInv : RegistryInv s) : RegistryInv t := by
  obtain ⟨hU, hM, hL⟩ := hInv
  unfold revoke_credential at h
  split at h
  · simp at h
  · rename_i c0 hfind
    split at h
    · cases h
      exact ⟨hU, hM, hL⟩
    · rename_i hany
      cases h
      have hc0mem : c0 ∈ s.credentials := List.mem_of_find?_eq_some hfind
      have hc0jti : c0.jti = jti := by
        have := List.find?_some hfind
        simpa using this
      have hanyF : ∀ e ∈ s.revoked, e.jti ≠ jti := by
        simp only [Bool.not_eq_true, List.any_eq_false] at hany
        intro e he
        simpa using hany e he
      have hmapRw := updateFirst_jti_eq_map jti (markRevoked now reason) s.credentials hU
      have hjti_ite : ∀ b : Credential,
          (if b.jti == jti then markRevoked now reason b else b).jti = b.jti := by
        intro b
        by_cases hb : (b.jti == jti) = true
        · simp [hb, markRevoked]
        · simp [hb]
      refine ⟨?_, ?_, ?_⟩
      · unfold jtiUnique
        show ((updateFirst (fun c => c.jti == jti) (markRevoked now reason) s.credentials).map
          (fun c => c.jti)).Nodup
        rw [updateFirst_map_eq (fun c => c.jti == jti) (markRevoked now reason)
          (fun c => c.jti) (fun c => rfl)]
        exact hU
      · intro c hc
        show c.status = .REVOKED ↔
          ∃ e ∈ s.revoked ++ [⟨entryId, jti, now, reason⟩], e.jti = c.jti
        rw [hmapRw] at hc
        rw [List.mem_map] at hc
        obtain ⟨c1, hc1, rfl⟩ := hc
        by_cases hcj : (c1.jti == jti) = true
        · simp only [if_pos hcj]
          have hj1 : c1.jti = jti := by simpa using hcj
          constructor
          · intro _
            refine ⟨⟨entryId, jti, now, reason⟩, by simp, ?_⟩
            show jti = (markRevoked now reason c1).jti
            rw [show (markRevoked now reason c1).jti = c1.jti from rfl, hj1]
          · intro _
            rfl
        · simp only [if_neg hcj]
          have hne : c1.jti ≠ jti := by simpa using hcj
          rw [hM c1 hc1]
          constructor
          · rintro ⟨e, he, hej⟩
            exact ⟨e, List.mem_append_left _ he, hej⟩
          · rintro ⟨e, he, hej⟩
            rw [List.mem_append] at he
            rcases he with he | he
            · exact ⟨e, he, hej⟩
            · simp at he
              rw [he] at hej
              exact absurd hej.symm hne
      · intro e he
        show ∃ c ∈ updateFirst (fun c => c.jti == jti) (markRevoked now reason) s.credentials,
          c.jti = e.jti
        rw [hmapRw]
        rw [List.mem_append] at he
        rcases he with he | he
        · obtain ⟨b, hb, hbj⟩ := hL e he
          exact ⟨_, List.mem_map_of_mem _ hb, by rw [hjti_ite b]; exact hbj⟩
        · simp at he
          refine ⟨_, List.mem_map_of_mem _ hc0mem, ?_⟩
          rw [hjti_ite c0, hc0jti, he]

theorem regInv_credBatch {encF hashF : String → String} {uuids : Nat → String}
    {now : PyDateTime} {items : List CredItem} {s : DBState} {r : BatchOut} {t : DBState}
    (h : upload_credential_batch encF hashF uuids now items s = .ok (r, t))
    (hInv : RegistryInv s) : RegistryInv t := by
  obtain ⟨hU, hM, hL⟩ := hInv
  unfold upload_credential_batch at h
  split at h
  · rename_i hcond
    obtain ⟨hpnd, hdisj⟩ := hcond
    cases h
    have hsound := @processCredItems_sound encF hashF uuids now s.credentials items 0
    refine ⟨?_, ?_, ?_⟩
    · unfold jtiUnique
      show ((s.credentials ++ (processCredItems encF hashF uuids now s.credentials items 0).2).map
        (fun c => c.jti)).Nodup
      rw [List.map_append]
      refine List.Nodup.append hU hpnd ?_
      intro j hj1 hj2
      rw [List.mem_map] at hj1 hj2
      obtain ⟨b, hb, rfl⟩ := hj1
      obtain ⟨c, hc, hcj⟩ := hj2
      exact hdisj c hc b hb hcj.symm
    · intro c hc
      show c.status = .REVOKED ↔ ∃ e ∈ s.revoked, e.jti = c.jti
      rw [List.mem_append] at hc
      rcases hc with hc | hc
      · exact hM c hc
      · obtain ⟨hACT, hdis⟩ := hsound c hc
        rw [hACT]
        constructor
        · intro habs
          exact absurd habs (by simp)
        · rintro ⟨e, he, hej⟩
          obtain ⟨b, hb, hbj⟩ := hL e he
          exact absurd (hbj.trans hej) (hdis b hb)
    · intro e he
      obtain ⟨b, hb, hbj⟩ := hL e he
      exact ⟨b, List.mem_append_left _ hb, hbj⟩
  · simp at h

theorem regInv_step {s t : DBState} (hInv : RegistryInv s) (h : Step s t) : RegistryInv t := by
  cases h with
  | holder subject dn newId now s =>
    exact regInv_of_eq (create_holder_fields subject dn newId now s).1
      (create_holder_fields subject dn newId now s).2 hInv
  | issuer issuer_id name newId now s =>
    exact regInv_of_eq (add_issuer_fields issuer_id name newId now s).1
      (add_issuer_fields issuer_id name newId now s).2 hInv
  | issuerKey issuer_id kid alg pem ia newId now s r t hq =>
    exact regInv_of_eq (add_issuer_key_ok_fields hq).1 (add_issuer_key_ok_fields hq).2 hInv
  | revokeCred jti reason now entryId s r t hq => exact regInv_revokeCred hq hInv
  | revokeKey kid s r t hq =>
    exact regInv_of_eq (revoke_issuer_key_ok_fields hq).1 (revoke_issuer_key_ok_fields hq).2 hInv
  | scanBatch items now uuids s =>
    exact regInv_of_eq (upload_scan_batch_fields items now uuids s).1
      (upload_scan_batch_fields items now uuids s).2 hInv
  | credBatch encF hashF uuids now items s r t hq => exact regInv_credBatch hq hInv

theorem reachable_regInv {s : DBState} (hs : Reachable s) : RegistryInv s := by
  induction hs with
  | init =>
    refine ⟨?_, ?_, ?_⟩ <;>
      simp [DBState.init, jtiUnique, statusMatchesLedger, ledgerHasCredential]
  | step s t hs hstep ih => exact regInv_step ih hstep

theorem step_preserves_revoked {s t : DBState} (h : Step s t) :
    ∀ c ∈ s.credentials, c.status = .REVOKED →
      ∃ c2 ∈ t.credentials, c2.jti = c.jti ∧ c2.status = .REVOKED := by
  cases h with
  | holder subject dn newId now s =>
    intro c hc hrev
    refine ⟨c, ?_, rfl, hrev⟩
    rw [(create_holder_fields subject dn newId now s).1]
    exact hc
  | issuer issuer_id name newId now s =>
    intro c hc hrev
    refine ⟨c, ?_, rfl, hrev⟩
    rw [(add_issuer_fields issuer_id name newId now s).1]
    exact hc
  | issuerKey issuer_id kid alg pem ia newId now s r t hq =>
    intro c hc hrev
    refine ⟨c, ?_, rfl, hrev⟩
    rw [(add_issuer_key_ok_fields hq).1]
    exact hc
  | revokeCred jti reason now entryId s r t hq =>
    intro c hc hrev
    unfold revoke_credential at hq
    split at hq
    · simp at hq
    · split at hq
      · cases hq
        exact ⟨c, hc, rfl, hrev⟩
      · cases hq
        obtain ⟨y, hy, hyx⟩ :=
          exists_mem_updateFirst (fun c => c.jti == jti) (markRevoked now reason) s.credentials c hc
        refine ⟨y, hy, ?_, ?_⟩
        · rcases hyx with rfl | rfl
          · rfl
          · rfl
        · rcases hyx with rfl | rfl
          · exact hrev
          · rfl
  | revokeKey kid s r t hq =>
    intro c hc hrev
    refine ⟨c, ?_, rfl, hrev⟩
    rw [(revoke_issuer_key_ok_fields hq).1]
    exact hc
  | scanBatch items now uuids s =>
    intro c hc hrev
    exact ⟨c, hc, rfl, hrev⟩
  | credBatch encF hashF uuids now items s r t hq =>
    intro c hc hrev
    unfold upload_credential_batch at hq
    split at hq
    · cases hq
      exact ⟨c, List.mem_append_left _ hc, rfl, hrev⟩
    · simp at hq

theorem rtg_preserves_revoked {s t : DBState} (h : Relation.ReflTransGen Step s t) :
    ∀ c ∈ s.credentials, c.status = .REVOKED →
      ∃ c2 ∈ t.credentials, c2.jti = c.jti ∧ c2.status = .REVOKED := by
  induction h with
  | refl => intro c hc hrev; exact ⟨c, hc, rfl, hrev⟩
  | tail hab hbc ih =>
    intro c hc hrev
    obtain ⟨c2, hc2, hj2, hr2⟩ := ih c hc hrev
    obtain ⟨c3, hc3, hj3, hr3⟩ := step_preserves_revoked hbc c2 hc2 hr2
    exact ⟨c3, hc3, hj3.trans hj2, hr3⟩

/-- C3: in every state reachable by any sequence of registry operations, a
credential has status `REVOKED` exactly when a revocation-ledger entry with
its `token_id` exists; and from any reachable state, once a credential is
`REVOKED` it stays `REVOKED` (never returns to `ACTIVE`) along every
further sequence of operations. -/
theorem registry_revocation_invariant (s : DBState) (hs : Reachable s) :
    (∀ c ∈ s.credentials, (c.status = .REVOKED ↔ ∃ e ∈ s.revoked, e.jti = c.jti)) ∧
    (∀ t, Relation.ReflTransGen Step s t → ∀ c ∈ s.credentials, c.status = .REVOKED →
      ∃ c2 ∈ t.credentials, c2.jti = c.jti ∧ c2.status = .REVOKED) :=
  ⟨(reachable_regInv hs).2.1, fun _ ht => rtg_preserves_revoked ht⟩

/-- Witness for C3 at the initial (empty) state, which is reachable by
construction. -/
theorem registry_revocation_invariant_witness :
    (∀ c ∈ DBState.init.credentials,
      (c.status = .REVOKED ↔ ∃ e ∈ DBState.init.revoked, e.jti = c.jti)) ∧
    (∀ t, Relation.ReflTransGen Step DBState.init t →
      ∀ c ∈ DBState.init.credentials, c.status = .REVOKED →
        ∃ c2 ∈ t.credentials, c2.jti = c.jti ∧ c2.status = .REVOKED) :=
  registry_revocation_invariant DBState.init Reachable.init

theorem mem_updateFirst_of_find? {α : Type _} {p : α → Bool} {f : α → α} :
    ∀ {l : List α} {x : α}, l.find? p = some x → f x ∈ updateFirst p f l := by
  intro l
  induction l with
  | nil => intro x h; simp at h
  | cons a t ih =>
    intro x h
    by_cases hp : p a
    · rw [List.find?_cons_of_pos _ hp] at h
      cases h
      rw [updateFirst, if_pos hp]
      simp
    · rw [List.find?_cons_of_neg _ hp] at h
      rw [updateFirst, if_neg hp]
      exact List.mem_cons_of_mem _ (ih h)

/-- C2: the full contract of `revoke_credential`. With no credential under
the given `token_id` it fails with `NotFound` (an error result carries no
successor state, so nothing is mutated); with an existing ledger entry it
returns `alreadyRevoked = true` and exactly the unchanged state; otherwise
it succeeds in one atomic state update after which the credential is
`REVOKED` with `revoked_at`/`revoke_reason` stamped and a matching ledger
entry exists — the two writes appear in the same single successor state,
never one without the other. -/
theorem revoke_credential_contract (jti : String) (reason : Option String) (now : PyDateTime)
    (entryId : String) (s : DBState) :
    ((∀ c ∈ s.credentials, c.jti ≠ jti) →
      revoke_credential jti reason now entryId s = .error (.notFound "Credential not found")) ∧
    ((∃ c ∈ s.credentials, c.jti = jti) → (∃ e ∈ s.revoked, e.jti = jti) →
      revoke_credential jti reason now entryId s = .ok (⟨true⟩, s)) ∧
    ((∃ c ∈ s.credentials, c.jti = jti) → (∀ e ∈ s.revoked, e.jti ≠ jti) →
      ∃ t, revoke_credential jti reason now entryId s = .ok (⟨false⟩, t) ∧
        (∃ c ∈ t.credentials, c.jti = jti ∧ c.status = .REVOKED ∧
          c.revoked_at = some now ∧ c.revoke_reason = reason) ∧
        (∃ e ∈ t.revoked, e.jti = jti) ∧
        t.revoked = s.revoked ++ [⟨entryId, jti, now, reason⟩] ∧
        t.credentials
          = updateFirst (fun c => c.jti == jti) (markRevoked now reason) s.credentials) := by
  refine ⟨?_, ?_, ?_⟩
  · intro hnone
    have hfind : s.credentials.find? (fun c => c.jti == jti) = none := by
      rw [List.find?_eq_none]
      intro c hc
      simpa using hnone c hc
    unfold revoke_credential
    simp only [hfind]
  · rintro ⟨c, hc, hcj⟩ ⟨e, he, hej⟩
    have hsome : (s.credentials.find? (fun c => c.jti == jti)).isSome := by
      rw [List.find?_isSome]
      exact ⟨c, hc, by simpa using hcj⟩
    obtain ⟨c0, hfind⟩ := Option.isSome_iff_exists.mp hsome
    have hany : (s.revoked.any fun e => e.jti == jti) = true :=
      List.any_eq_true.mpr ⟨e, he, by simpa using hej⟩
    unfold revoke_credential
    simp only [hfind, hany, if_true]
  · rintro ⟨c, hc, hcj⟩ hno
    have hsome : (s.credentials.find? (fun c => c.jti == jti)).isSome := by
      rw [List.find?_isSome]
      exact ⟨c, hc, by simpa using hcj⟩
    obtain ⟨c0, hfind⟩ := Option.isSome_iff_exists.mp hsome
    have hany : (s.revoked.any fun e => e.jti == jti) = false := by
      rw [List.any_eq_false]
      intro e he
      simpa using hno e he
    have hc0jti : c0.jti = jti := by
      have := List.find?_some hfind
      simpa using this
    refine ⟨{ s with
        credentials := updateFirst (fun c => c.jti == jti) (markRevoked now reason) s.credentials,
        revoked := s.revoked ++ [⟨entryId, jti, now, reason⟩] }, ?_, ?_, ?_, rfl, rfl⟩
    · unfold revoke_credential
      simp only [hfind, hany]
      rfl
    · refine ⟨markRevoked now reason c0, mem_updateFirst_of_find? hfind, ?_, rfl, rfl, rfl⟩
      show (markRevoked now reason c0).jti = jti
      rw [show (markRevoked now reason c0).jti = c0.jti from rfl, hc0jti]
    · exact ⟨⟨entryId, jti, now, reason⟩, by simp, rfl⟩

/-- Witness for C2 in its successful-revocation case at the fixture state
holding one active credential with token id `abc`. -/
theorem revoke_credential_contract_witness :
    ∃ t, revoke_credential "abc" (some "fraud") dt0 "e1" s0 = .ok (⟨false⟩, t) ∧
      (∃ c ∈ t.credentials, c.jti = "abc" ∧ c.status = .REVOKED ∧
        c.revoked_at = some dt0 ∧ c.revoke_reason = some "fraud") ∧
      (∃ e ∈ t.revoked, e.jti = "abc") ∧
      t.revoked = s0.revoked ++ [⟨"e1", "abc", dt0, some "fraud"⟩] ∧
      t.credentials
        = updateFirst (fun c => c.jti == "abc") (markRevoked dt0 (some "fraud")) s0.credentials :=
  (revoke_credential_contract "abc" (some "fraud") dt0 "e1" s0).2.2
    ⟨cred0, by simp [s0], by simp [cred0]⟩ (by simp [s0])

/-- C4: `add_issuer_key` fails with `IssuerNotFound` when the target
issuer is unregistered, and fails with `DuplicateKeyId` whenever any
issuer (the target itself or another) already owns a key with the given
`kid`, reporting the issuer that owns the conflicting key; an error result
carries no successor state, so the key registry is left unchanged. The
well-formedness hypothesis (every stored key names a stored issuer) holds
in every reachable state, because keys are only inserted under a found
issuer. -/
theorem add_issuer_key_uniqueness (issuer_id kid alg pem : String) (ia : Bool)
    (newId : String) (now : PyDateTime) (s : DBState)
    (hwf : ∀ k ∈ s.issuerKeys, ∃ i ∈ s.issuers, i.id = k.issuer_id_fk) :
    ((∀ i ∈ s.issuers, i.issuer_id ≠ issuer_id) →
      add_issuer_key issuer_id kid alg pem ia newId now s
        = .error (.notFound "Issuer not found")) ∧
    ((∃ i ∈ s.issuers, i.issuer_id = issuer_id) → (∃ k ∈ s.issuerKeys, k.kid = kid) →
      ∃ owner ∈ s.issuers, (∃ k ∈ s.issuerKeys, k.kid = kid ∧ owner.id = k.issuer_id_fk) ∧
        add_issuer_key issuer_id kid alg pem ia newId now s
          = .error (.duplicateKeyId kid owner.issuer_id)) := by
  constructor
  · intro hnone
    have hfind : s.issuers.find? (fun i => i.issuer_id == issuer_id) = none := by
      rw [List.find?_eq_none]
      intro i hi
      simpa using hnone i hi
    unfold add_issuer_key
    simp only [hfind]
  · rintro ⟨i, hi, hii⟩ ⟨k, hk, hkk⟩
    have hsomeI : (s.issuers.find? (fun i => i.issuer_id == issuer_id)).isSome := by
      rw [List.find?_isSome]
      exact ⟨i, hi, by simpa using hii⟩
    obtain ⟨iss, hfindI⟩ := Option.isSome_iff_exists.mp hsomeI
    have hsomeK : (s.issuerKeys.find? (fun k => k.kid == kid)).isSome := by
      rw [List.find?_isSome]
      exact ⟨k, hk, by simpa using hkk⟩
    obtain ⟨k0, hfindK⟩ := Option.isSome_iff_exists.mp hsomeK
    have hk0mem : k0 ∈ s.issuerKeys := List.mem_of_find?_eq_some hfindK
    have hk0kid : k0.kid = kid := by
      have := List.find?_some hfindK
      simpa using this
    obtain ⟨iw, hiw, hiwid⟩ := hwf k0 hk0mem
    have hsomeO : (s.issuers.find? (fun i => i.id == k0.issuer_id_fk)).isSome := by
      rw [List.find?_isSome]
      exact ⟨iw, hiw, by simpa using hiwid⟩
    obtain ⟨owner, hfindO⟩ := Option.isSome_iff_exists.mp hsomeO
    have hOmem : owner ∈ s.issuers := List.mem_of_find?_eq_some hfindO
    have hOid : owner.id = k0.issuer_id_fk := by
      have := List.find?_some hfindO
      simpa using this
    refine ⟨owner, hOmem, ⟨k0, hk0mem, hk0kid, hOid⟩, ?_⟩
    unfold add_issuer_key
    simp only [hfindI, hfindK, hfindO]

/-- Witness for C4: registering the already-owned `kid-1` for the other
registered issuer `did:ex:b` of the fixture state reports `issuerA` as the
conflicting owner. -/
theorem add_issuer_key_uniqueness_witness :
    ∃ owner ∈ sKeys.issuers,
      (∃ k ∈ sKeys.issuerKeys, k.kid = "kid-1" ∧ owner.id = k.issuer_id_fk) ∧
      add_issuer_key "did:ex:b" "kid-1" "RS256" "PEM-NEW" true "K9" dt0 sKeys
        = .error (.duplicateKeyId "kid-1" owner.issuer_id) :=
  (add_issuer_key_uniqueness "did:ex:b" "kid-1" "RS256" "PEM-NEW" true "K9" dt0 sKeys
      (by decide)).2
    ⟨issuerB, by simp [sKeys], by simp [issuerB]⟩
    ⟨keyA, by simp [sKeys], by simp [keyA]⟩

/-- C5: the trust bundle consists exactly of the keys with `is_active`
true and `revoked` false, each joined to its owning issuer's public
identifier, and its `version` equals the length of the returned list; in
particular every bundle item stems from a non-revoked key, so a revoked
key never contributes an item even when `is_active` is true. -/
theorem get_trust_bundle_spec (now : PyDateTime) (s : DBState)
    (hwf : ∀ k ∈ s.issuerKeys, ∃ i ∈ s.issuers, i.id = k.issuer_id_fk) :
    (get_trust_bundle now s).version = (get_trust_bundle now s).issuers.length ∧
    (∀ it ∈ (get_trust_bundle now s).issuers, ∃ k ∈ s.issuerKeys,
      k.is_active = true ∧ k.revoked = false ∧ it.kid = k.kid ∧ it.alg = k.alg ∧
      it.publicKeyPem = k.public_key_pem ∧
      ∃ i ∈ s.issuers, i.id = k.issuer_id_fk ∧ it.issuerId = i.issuer_id) ∧
    (∀ k ∈ s.issuerKeys, k.is_active = true → k.revoked = false →
      ∃ it ∈ (get_trust_bundle now s).issuers,
        it.kid = k.kid ∧ it.alg = k.alg ∧ it.publicKeyPem = k.public_key_pem) := by
  refine ⟨rfl, ?_, ?_⟩
  · intro it hit
    have hit2 : it ∈ s.issuerKeys.filterMap (trustBundleItemOf s) := hit
    rw [List.mem_filterMap] at hit2
    obtain ⟨k, hk, hOf⟩ := hit2
    unfold trustBundleItemOf at hOf
    by_cases hcond : (k.is_active && !k.revoked) = true
    · rw [if_pos hcond] at hOf
      rw [Option.map_eq_some'] at hOf
      obtain ⟨i, hfi, rfl⟩ := hOf
      have hact : k.is_active = true := by
        simp only [Bool.and_eq_true] at hcond
        exact hcond.1
      have hrev : k.revoked = false := by
        simp only [Bool.and_eq_true, Bool.not_eq_true'] at hcond
        exact hcond.2
      have himem : i ∈ s.issuers := List.mem_of_find?_eq_some hfi
      have hiid : i.id = k.issuer_id_fk := by
        have := List.find?_some hfi
        simpa using this
      exact ⟨k, hk, hact, hrev, rfl, rfl, rfl, i, himem, hiid, rfl⟩
    · rw [if_neg hcond] at hOf
      simp at hOf
  · intro k hk hact hrev
    obtain ⟨i, hi, hid⟩ := hwf k hk
    have hsome : (s.issuers.find? (fun i => i.id == k.issuer_id_fk)).isSome := by
      rw [List.find?_isSome]
      exact ⟨i, hi, by simpa using hid⟩
    obtain ⟨i0, hfind⟩ := Option.isSome_iff_exists.mp hsome
    refine ⟨⟨i0.issuer_id, k.kid, k.alg, k.public_key_pem⟩, ?_, rfl, rfl, rfl⟩
    show _ ∈ s.issuerKeys.filterMap (trustBundleItemOf s)
    rw [List.mem_filterMap]
    refine ⟨k, hk, ?_⟩
    unfold trustBundleItemOf
    rw [if_pos (by simp [hact, hrev]), hfind]
    rfl

/-- Witness for C5 at the fixture state: the version equals the item
count, every item stems from an active non-revoked key, and the active
non-revoked `keyA` contributes an item. -/
theorem get_trust_bundle_spec_witness :
    (get_trust_bundle dt0 sKeys).version = (get_trust_bundle dt0 sKeys).issuers.length ∧
    (∀ it ∈ (get_trust_bundle dt0 sKeys).issuers, ∃ k ∈ sKeys.issuerKeys,
      k.is_active = true ∧ k.revoked = false ∧ it.kid = k.kid ∧ it.alg = k.alg ∧
      it.publicKeyPem = k.public_key_pem ∧
      ∃ i ∈ sKeys.issuers, i.id = k.issuer_id_fk ∧ it.issuerId = i.issuer_id) ∧
    (∀ k ∈ sKeys.issuerKeys, k.is_active = true → k.revoked = false →
      ∃ it ∈ (get_trust_bundle dt0 sKeys).issuers,
        it.kid = k.kid ∧ it.alg = k.alg ∧ it.publicKeyPem = k.public_key_pem) :=
  get_trust_bundle_spec dt0 sKeys (by decide)

/-- C7: the token codec fails exactly when the input does not split into
three dot-separated segments, when base64url decoding of the first or
second segment (after restoring stripped padding) fails, or when a decoded
segment is not valid utf-8 JSON; in particular the four-segment token
`not.a.valid.jwt` fails, and submitting it through the credential batch
creates no credential (the state is returned unchanged with zero items
uploaded and no error). -/
theorem parse_jws_malformed_spec :
    (∀ t : String, parse_jws_unverified t = none ↔
      ((splitOnChar '.' t.data).length ≠ 3 ∨
        ∃ h p sg, splitOnChar '.' t.data = [h, p, sg] ∧
          (decodeSegment h = none ∨
            (∃ hb, decodeSegment h = some hb ∧ jsonLoads hb = none) ∨
            decodeSegment p = none ∨
            (∃ pb, decodeSegment p = some pb ∧ jsonLoads pb = none)))) ∧
    parse_jws_unverified "not.a.valid.jwt" = none ∧
    (∀ (encF hashF : String → String) (uuids : Nat → String) (now : PyDateTime) (s : DBState),
      upload_credential_batch encF hashF uuids now [⟨some "not.a.valid.jwt"⟩] s
        = .ok (⟨0, 1⟩, s)) := by
  refine ⟨?_, rfl, ?_⟩
  · intro t
    unfold parse_jws_unverified
    rcases hsplit : splitOnChar '.' t.data with _ | ⟨h1, _ | ⟨p1, _ | ⟨sg1, _ | rest⟩⟩⟩
    · simp [hsplit]
    · simp [hsplit]
    · simp [hsplit]
    · change ((decodeSegment h1).bind fun hb =>
        (jsonLoads hb).bind fun hj =>
          (decodeSegment p1).bind fun pb =>
            (jsonLoads pb).map fun pj => (⟨hj, pj⟩ : JwsMeta)) = none ↔ _
      rcases hdh : decodeSegment h1 with _ | hb
      · exact iff_of_true rfl (Or.inr ⟨h1, p1, sg1, rfl, Or.inl hdh⟩)
      · simp only [Option.some_bind]
        rcases hjh : jsonLoads hb with _ | hj
        · exact iff_of_true rfl (Or.inr ⟨h1, p1, sg1, rfl, Or.inr (Or.inl ⟨hb, hdh, hjh⟩)⟩)
        · simp only [Option.some_bind]
          rcases hdp : decodeSegment p1 with _ | pb
          · exact iff_of_true rfl
              (Or.inr ⟨h1, p1, sg1, rfl, Or.inr (Or.inr (Or.inl hdp))⟩)
          · simp only [Option.some_bind]
            rcases hjp : jsonLoads pb with _ | pj
            · exact iff_of_true rfl
                (Or.inr ⟨h1, p1, sg1, rfl, Or.inr (Or.inr (Or.inr ⟨pb, hdp, hjp⟩))⟩)
            · refine iff_of_false (by simp) ?_
              rintro (hlen | ⟨h, p, sg, heq, hcase⟩)
              · simp at hlen
              · simp only [List.cons.injEq, and_true] at heq
                obtain ⟨rfl, rfl, rfl, -⟩ := heq
                rcases hcase with hx | ⟨hb2, hx, hy⟩ | hx | ⟨pb2, hx, hy⟩
                · rw [hdh] at hx
                  simp at hx
                · rw [hdh, Option.some_inj] at hx
                  subst hx
                  rw [hjh] at hy
                  simp at hy
                · rw [hdp] at hx
                  simp at hx
                · rw [hdp, Option.some_inj] at hx
                  subst hx
                  rw [hjp] at hy
                  simp at hy
    · simp [hsplit]
  · intro encF hashF uuids now s
    have hstep : credItemStep encF hashF uuids now s.credentials ⟨some "not.a.valid.jwt"⟩ 0
        = (none, 0) := rfl
    have hproc : processCredItems encF hashF uuids now s.credentials
        [⟨some "not.a.valid.jwt"⟩] 0 = (0, []) := by
      rw [processCredItems, hstep]
      rfl
    unfold upload_credential_batch
    rw [hproc, if_pos ⟨by simp, by simp⟩]
    simp

/-- Witness for C7: the failure characterisation instantiated at the
four-segment token. -/
theorem parse_jws_malformed_spec_witness :
    parse_jws_unverified "not.a.valid.jwt" = none ↔
      ((splitOnChar '.' (String.data "not.a.valid.jwt")).length ≠ 3 ∨
        ∃ h p sg, splitOnChar '.' (String.data "not.a.valid.jwt") = [h, p, sg] ∧
          (decodeSegment h = none ∨
            (∃ hb, decodeSegment h = some hb ∧ jsonLoads hb = none) ∨
            decodeSegment p = none ∨
            (∃ pb, decodeSegment p = some pb ∧ jsonLoads pb = none))) :=
  parse_jws_malformed_spec.1 "not.a.valid.jwt"

/-- C1: ingestion through the credential batch is idempotent on
`token_id`: for every store state and every parseable token whose `jti`
claim names an existing credential, resubmitting the token returns success
with zero uploads and exactly the unchanged state — no second row is
created, no field of the existing credential changes, and no error is
raised. -/
theorem ingest_idempotent_on_duplicate (encF hashF : String → String) (uuids : Nat → String)
    (now : PyDateTime) (token : String) (meta : JwsMeta) (fields : List (String × Json))
    (j : String) (s : DBState)
    (hparse : parse_jws_unverified token = some meta)
    (hpay : meta.payload = .obj fields)
    (hjti : jtiClaim fields = .claimed j)
    (hdup : ∃ c ∈ s.credentials, c.jti = j) :
    upload_credential_batch encF hashF uuids now [⟨some token⟩] s = .ok (⟨0, 1⟩, s) := by
  have htne : token ≠ "" := by
    intro he
    rw [he, show parse_jws_unverified "" = none from rfl] at hparse
    simp at hparse
  obtain ⟨c, hc, hcj⟩ := hdup
  have hany : (s.credentials.any fun c => c.jti == j) = true :=
    List.any_eq_true.mpr ⟨c, hc, by simpa using hcj⟩
  have hstep : credItemStep encF hashF uuids now s.credentials ⟨some token⟩ 0 = (none, 0) := by
    simp [credItemStep, hparse, hpay, hjti, htne, hany]
  have hproc : processCredItems encF hashF uuids now s.credentials [⟨some token⟩] 0 = (0, []) := by
    rw [processCredItems, hstep]
    rfl
  unfold upload_credential_batch
  rw [hproc, if_pos ⟨by simp, by simp⟩]
  simp

/-- Witness for C1: resubmitting `tokenAbc` against the fixture state that
already stores a credential with token id `abc` changes nothing. -/
theorem ingest_idempotent_on_duplicate_witness :
    upload_credential_batch (fun z => z) (fun z => z) (fun _ => "u") dt0 [⟨some tokenAbc⟩] s0
      = .ok (⟨0, 1⟩, s0) :=
  ingest_idempotent_on_duplicate (fun z => z) (fun z => z) (fun _ => "u") dt0 tokenAbc
    ⟨headerAbc, payloadAbc⟩ payloadAbcFields "abc" s0 rfl rfl rfl
    ⟨cred0, by simp [s0], by simp [cred0]⟩

/-- C9 counterexample: ingesting the token with claims `jti = abc`,
`iss = did:issuer:1`, `sub = did:holder:9` and `vc.type = Diploma` into
the empty store does create a credential with token id `abc`, but its
`types` column is null, not the singleton `Diploma`: the batch handler
builds its simplified credential row without extracting `vc.type`, so the
claim fails at this input. -/
theorem ingest_tokenAbc_types_counterexample :
    ∃ t, upload_credential_batch (fun z => z) (fun z => z) (fun _ => "u") dt0
        [⟨some tokenAbc⟩] DBState.init = .ok (⟨1, 1⟩, t) ∧
      (∃ c ∈ t.credentials, c.jti = "abc") ∧
      ∀ c ∈ t.credentials, c.types ≠ some ["Diploma"] := by
  refine ⟨{ DBState.init with credentials :=
      [⟨"u", "abc", .jws, some "did:issuer:1", some "did:holder:9",
        none, none, none, none, .ACTIVE, none, none, tokenAbc, tokenAbc, dt0⟩] },
    rfl, ?_, ?_⟩
  · exact ⟨⟨"u", "abc", .jws, some "did:issuer:1", some "did:holder:9",
      none, none, none, none, .ACTIVE, none, none, tokenAbc, tokenAbc, dt0⟩, by simp, rfl⟩
  · intro c hc
    simp at hc
    rw [hc]
    simp

/-- C9 amended: ingesting the token with claims `jti = abc`,
`iss = did:issuer:1`, `sub = did:holder:9` and `vc.type = Diploma`
produces a credential with `token_id = abc`, `status = ACTIVE`,
`issuer_did = did:issuer:1` and `holder_subject = did:holder:9`, the raw
token encrypted and fingerprinted by the injected blob-store functions —
but with `types` (like the validity-window columns) left null, because the
batch handler does not extract the `vc.type` claim. -/
theorem ingest_tokenAbc_amended (encF hashF : String → String) (uuids : Nat → String)
    (now : PyDateTime) :
    upload_credential_batch encF hashF uuids now [⟨some tokenAbc⟩] DBState.init
      = .ok (⟨1, 1⟩, { DBState.init with credentials :=
          [⟨uuids 0, "abc", .jws, some "did:issuer:1", some "did:holder:9",
            none, none, none, none, .ACTIVE, none, none,
            encF tokenAbc, hashF tokenAbc, now⟩] }) := rfl

/-- C8: a five-item scan batch in which exactly the third item has an
unparseable timestamp reports four uploads out of five, persists exactly
the four surviving scan events in order (the failing item's constructed
row, and the uuid it consumed, are discarded), and processes the items
after the failing one normally. -/
theorem scan_batch_partial_tolerance (now : PyDateTime) (uuids : Nat → String) (s : DBState) :
    upload_scan_batch
      [⟨some "s1", some true, some "2024-01-01T00:00:00Z"⟩,
        ⟨some "s2", none, none⟩,
        ⟨some "s3", some true, some "not-a-timestamp"⟩,
        ⟨none, some false, some "2024-06-15T12:30:45.5+05:30"⟩,
        ⟨some "s5", some true, none⟩] now uuids s
      = (⟨4, 5⟩, { s with scans := s.scans ++
          [⟨uuids 0, "s1", true, ⟨2024, 1, 1, 0, 0, 0, 0, some 0⟩⟩,
            ⟨uuids 1, "s2", false, now⟩,
            ⟨uuids 3, "unknown", false, ⟨2024, 6, 15, 12, 30, 45, 500000, some 330⟩⟩,
            ⟨uuids 4, "s5", true, now⟩] }) := rfl

/-- C10: a scan item that omits `jti` or `verified` is neither rejected
nor skipped (provided its timestamp, when present, parses): it is counted
in `uploaded` and persisted with `jti` defaulted to `unknown` and
`verified` defaulted to `false`. -/
theorem scan_item_default_fields (item : ScanItem) (now : PyDateTime) (uuids : Nat → String)
    (s : DBState) (h : scanTimestampOk item) :
    ∃ e, upload_scan_batch [item] now uuids s
        = (⟨1, 1⟩, { s with scans := s.scans ++ [e] }) ∧
      (item.jti = none → e.jti = "unknown") ∧
      (item.verified = none → e.verified = false) := by
  rcases hts : item.scanned_at with _ | ts
  · refine ⟨⟨uuids 0, item.jti.getD "unknown", item.verified.getD false, now⟩, ?_, ?_, ?_⟩
    · have hstep : scanItemStep now (uuids 0) item
          = some ⟨uuids 0, item.jti.getD "unknown", item.verified.getD false, now⟩ := by
        simp [scanItemStep, hts]
      have hproc : processScanItems now uuids [item] 0
          = (1, [⟨uuids 0, item.jti.getD "unknown", item.verified.getD false, now⟩]) := by
        rw [processScanItems, hstep]
        rfl
      unfold upload_scan_batch
      rw [hproc]
      rfl
    · intro hj
      simp [hj]
    · intro hv
      simp [hv]
  · have hsome := h ts hts
    obtain ⟨dtv, hdt⟩ := Option.isSome_iff_exists.mp hsome
    refine ⟨⟨uuids 0, item.jti.getD "unknown", item.verified.getD false, dtv⟩, ?_, ?_, ?_⟩
    · have hstep : scanItemStep now (uuids 0) item
          = some ⟨uuids 0, item.jti.getD "unknown", item.verified.getD false, dtv⟩ := by
        simp [scanItemStep, hts, hdt]
      have hproc : processScanItems now uuids [item] 0
          = (1, [⟨uuids 0, item.jti.getD "unknown", item.verified.getD false, dtv⟩]) := by
        rw [processScanItems, hstep]
        rfl
      unfold upload_scan_batch
      rw [hproc]
      rfl
    · intro hj
      simp [hj]
    · intro hv
      simp [hv]

/-- Witness for C10 at the empty scan item, which omits every field. -/
theorem scan_item_default_fields_witness :
    ∃ e, upload_scan_batch [⟨none, none, none⟩] dt0 (fun _ => "u") DBState.init
        = (⟨1, 1⟩, { DBState.init with scans := DBState.init.scans ++ [e] }) ∧
      ((⟨none, none, none⟩ : ScanItem).jti = none → e.jti = "unknown") ∧
      ((⟨none, none, none⟩ : ScanItem).verified = none → e.verified = false) :=
  scan_item_default_fields ⟨none, none, none⟩ dt0 (fun _ => "u") DBState.init
    (fun _ hts => nomatch hts)

end VC
